import Mathlib

/-!
# Scenario engine of the alert load generator

A shallow embedding of `pkg/generator/generator.go` and of the `Alert` record of
`pkg/provider/provider.go`, followed by theorems about it.

Modelling conventions.

* Go `int` values are modelled by `Int` (unbounded).  Every intermediate value
  of the loops below is bounded by `4 * Count`, so the model and a 64-bit
  machine agree for all counts below `2^61`.
* `float64` values (`Rate`, the `progress` detail) are modelled by the exact
  rational they approximate.
* Everything outside the process is an oracle collected in `Env`: the alert
  sink, the cancellation signal, the random source, the clock and (for the
  pooled scenarios) the goroutine scheduler.
* Effects are recorded in a `World`: counters telling how often each oracle
  has been consulted and the trace of observable events.
* A run ends in an `Outcome`: a normal return, a runtime panic, or a deadlock
  of all goroutines.  The pooled scenarios are run with a step budget; the
  outcome `unfinished` marks its exhaustion and is shown never to occur.
-/

namespace AlertGen

/-! ## Data model -/

/-- Value stored in the `Details` map of an alert (`interface{}` in the source). -/
inductive DetailValue where
  | str (s : String)
  | int (n : Int)
  | float (q : ℚ)
  deriving DecidableEq, Repr

/-- The record `provider.Alert`; `Timestamp` is a clock reading in nanoseconds. -/
structure Alert where
  ID : String
  Message : String
  Severity : String
  Source : String
  Priority : String
  Details : List (String × DetailValue)
  Timestamp : Int
  deriving DecidableEq, Repr

/-- The record `ScenarioOptions`; `Params` is the Go map `map[string]string`. -/
structure ScenarioOptions where
  Count : Int
  Interval : Int
  Concurrency : Int
  Params : String → Option String

/-- The record `ScenarioResult`; `Duration` is in nanoseconds.  The Go zero
value is the record of zeros. -/
structure ScenarioResult where
  Sent : Int := 0
  Failed : Int := 0
  Duration : Int := 0
  Rate : ℚ := 0
  deriving DecidableEq, Repr

/-- Error values the engine can return. -/
inductive GoError where
  /-- The value of `ctx.Err()` once `ctx.Done()` is closed. -/
  | ctxErr
  /-- An error built by `fmt.Errorf`, with its message. -/
  | errorf (msg : String)
  deriving DecidableEq, Repr

/-- Observable events of a run, in program order. -/
inductive Event where
  /-- A call `g.provider.SendAlert(ctx, alert)`; `ok` means a nil error. -/
  | send (alert : Alert) (ok : Bool)
  /-- A call `time.Sleep` for the configured interval (milliseconds). -/
  | sleep (ms : Int)
  /-- A line written by `fmt.Printf`. -/
  | print (line : String)
  /-- The `time.Sleep` of the burst scenario at a burst boundary (milliseconds). -/
  | pause (ms : Int)
  /-- A worker goroutine of a pooled scenario has left its loop (`wg.Done`). -/
  | workerDone (w : Nat)
  deriving DecidableEq, Repr

/-- How a run ends. -/
inductive Outcome where
  | returned (res : ScenarioResult) (err : Option GoError)
  | panicked (msg : String)
  | deadlocked
  /-- The step budget of the model of a pooled run was used up. -/
  | unfinished
  deriving DecidableEq, Repr

/-- A finished run: what happened and how it ended. -/
structure Run where
  trace : List Event
  outcome : Outcome
  deriving DecidableEq, Repr

/-- The oracles a run consults. -/
structure Env where
  /-- Outcome of the `n`-th sink call (counted from 0) on the given alert. -/
  sink : Nat → Alert → Bool
  /-- Whether `ctx.Done()` is found closed at the `n`-th `select`. -/
  done : Nat → Bool
  /-- Raw value behind the `n`-th call of `rand.Intn`. -/
  rand : Nat → Nat
  /-- The `n`-th reading of the clock, in nanoseconds. -/
  now : Nat → Int
  /-- The goroutine the scheduler favours at the `n`-th scheduling point. -/
  sched : Nat → Nat

/-- Effects so far: how often each oracle was consulted, and the trace. -/
structure World where
  calls : Nat := 0
  checks : Nat := 0
  draws : Nat := 0
  reads : Nat := 0
  trace : List Event := []
  deriving DecidableEq, Repr

/-! ## Primitive operations -/

/-- The call `time.Now()`. -/
def timeNow (env : Env) (w : World) : Int × World :=
  (env.now w.reads, { w with reads := w.reads + 1 })

/-- The call `rand.Intn(n)` for `n > 0`: a value in `[0, n)`. -/
def randIntn (env : Env) (w : World) (n : Nat) : Nat × World :=
  (env.rand w.draws % n, { w with draws := w.draws + 1 })

/-- The non-blocking `select` on `ctx.Done()`. -/
def ctxDone (env : Env) (w : World) : Bool × World :=
  (env.done w.checks, { w with checks := w.checks + 1 })

/-- The call `g.provider.SendAlert(ctx, alert)`; the result tells whether the
returned error is nil. -/
def sendAlert (env : Env) (w : World) (a : Alert) : Bool × World :=
  (env.sink w.calls a,
   { w with calls := w.calls + 1, trace := w.trace ++ [Event.send a (env.sink w.calls a)] })

/-- Append an event to the trace. -/
def emit (w : World) (e : Event) : World :=
  { w with trace := w.trace ++ [e] }

/-- Go integer division: a panic on a zero divisor, truncation otherwise. -/
def goDiv (a b : Int) : Except String Int :=
  if b = 0 then .error "runtime error: integer divide by zero" else .ok (Int.tdiv a b)

/-- Go integer remainder: a panic on a zero divisor, sign of the dividend otherwise. -/
def goMod (a b : Int) : Except String Int :=
  if b = 0 then .error "runtime error: integer divide by zero" else .ok (Int.tmod a b)

/-- Go slice indexing `xs[i]` with its bounds check. -/
def goIndex {α : Type} (xs : List α) (i : Int) : Except String α :=
  if 0 ≤ i ∧ i < xs.length then
    match xs[i.toNat]? with
    | some x => .ok x
    | none => .error "runtime error: index out of range"
  else .error "runtime error: index out of range"

/-- The verb `%d` of `fmt.Sprintf` applied to an integer. -/
def fmtInt (i : Int) : String := toString i

/-- The update `result.Sent++` or `result.Failed++` after a sink call. -/
def record (result : ScenarioResult) (ok : Bool) : ScenarioResult :=
  if ok then { result with Sent := result.Sent + 1 }
  else { result with Failed := result.Failed + 1 }

/-- The closing lines of every scenario: `result.Duration = time.Since(start)`
and the derived `result.Rate` when the duration is positive. -/
def finish (env : Env) (w : World) (start : Int) (result : ScenarioResult) : Run :=
  let t := timeNow env w
  let result := { result with Duration := t.1 - start }
  let result :=
    if result.Duration > 0 then
      { result with Rate := (result.Sent : ℚ) / ((result.Duration : ℚ) / 1000000000) }
    else result
  { trace := t.2.trace, outcome := .returned result none }

/-! ## Escalating scenario -/

/-- The slice `severities` of the escalating, random and burst scenarios. -/
def severities : List String := ["info", "warning", "error", "critical"]

/-- The slice `priorities` of the escalating and random scenarios. -/
def priorities : List String := ["low", "medium", "high", "critical"]

/-- Lines 108-111: the severity index of alert `i` in a run of `total`. -/
def severityIndex (i total : Int) : Except String Int := do
  let severityIndex ← goDiv (i * severities.length) total
  if severityIndex ≥ severities.length then
    pure ((severities.length : Int) - 1)
  else
    pure severityIndex

/-- Lines 113-116: the priority index of alert `i` in a run of `total`. -/
def priorityIndex (i total : Int) : Except String Int := do
  let priorityIndex ← goDiv (i * priorities.length) total
  if priorityIndex ≥ priorities.length then
    pure ((priorities.length : Int) - 1)
  else
    pure priorityIndex

/-- Lines 108-130: the alert of index `i`, stamped with clock reading `ts`. -/
def escalatingAlert (i total ts : Int) : Except String Alert := do
  let severityIndex ← severityIndex i total
  let priorityIndex ← priorityIndex i total
  let severity ← goIndex severities severityIndex
  let priority ← goIndex priorities priorityIndex
  pure {
    ID := "escalating-" ++ fmtInt i
    Message := "Escalating alert #" ++ fmtInt i
    Severity := severity
    Priority := priority
    Source := "scenario-escalating"
    Timestamp := ts
    Details := [("scenario", .str "escalating"),
                ("progress", .float ((i : ℚ) / (total : ℚ))),
                ("index", .int i)] }

/-- How a sequential loop is left. -/
inductive LoopExit where
  /-- The loop condition failed: control reaches the lines after the loop. -/
  | completed (w : World) (result : ScenarioResult)
  /-- A `return` inside the loop. -/
  | returned (w : World) (result : ScenarioResult) (err : GoError)
  /-- A runtime panic inside the loop. -/
  | panicked (w : World) (msg : String)
  deriving DecidableEq, Repr

/-- Lines 102-144: the loop `for i := 0; i < total; i++`, entered at index `i`
with `rem` iterations left before `i` reaches `total`. -/
def escalatingLoop (env : Env) (total interval : Int) :
    Nat → Nat → World → ScenarioResult → LoopExit
  | 0, _, w, result => .completed w result
  | rem + 1, i, w, result =>
    let c := ctxDone env w
    if c.1 then
      .returned c.2 result .ctxErr
    else
      let t := timeNow env c.2
      match escalatingAlert i total t.1 with
      | .error msg => .panicked c.2 msg
      | .ok alert =>
        let s := sendAlert env t.2 alert
        let result := record result s.1
        let w := if (i : Int) < total - 1 then emit s.2 (.sleep interval) else s.2
        escalatingLoop env total interval rem (i + 1) w result

/-- The function `generateEscalatingScenario`. -/
def generateEscalatingScenario (env : Env) (opts : ScenarioOptions) : Run :=
  let total := opts.Count
  let interval := opts.Interval
  let start := timeNow env {}
  match escalatingLoop env total interval total.toNat 0 start.2 {} with
  | .completed w result => finish env w start.1 result
  | .returned w result err => { trace := w.trace, outcome := .returned result (some err) }
  | .panicked w msg => { trace := w.trace, outcome := .panicked msg }

/-! ## Burst scenario

The scenario reads its two parameters with `fmt.Sscanf(v, "%d", &x)` and drops
the results of the call.  `fmt.Sscanf` is part of the Go standard library; the
definitions `isSpace`, `skipSpace` and `scanInt` follow its scanner
(`fmt/scan.go`) for the single verb `%d` and an operand of type `*int`. -/

/-- The table `space` of package `fmt`: the runes `fmt` scanning treats as blanks. -/
def isSpace (c : Char) : Bool :=
  let r := c.toNat
  decide ((0x0009 ≤ r ∧ r ≤ 0x000d) ∨ r = 0x0020 ∨ r = 0x0085 ∨ r = 0x00a0 ∨ r = 0x1680 ∨
    (0x2000 ≤ r ∧ r ≤ 0x200a) ∨ (0x2028 ≤ r ∧ r ≤ 0x2029) ∨ r = 0x202f ∨ r = 0x205f ∨
    r = 0x3000)

/-- Membership in the digit set `"0123456789"` that the verb `%d` accepts. -/
def isDecimalDigit (c : Char) : Bool :=
  decide ('0'.toNat ≤ c.toNat ∧ c.toNat ≤ '9'.toNat)

/-- The method `SkipSpace` of the `fmt` scanner as run by `Sscanf`: blanks are
dropped, and a newline among them is a scan error. -/
def skipSpace : List Char → Except String (List Char)
  | [] => .ok []
  | c :: cs =>
    if c = '\r' ∧ cs.head? = some '\n' then skipSpace cs
    else if c = '\n' then .error "unexpected newline"
    else if isSpace c then skipSpace cs
    else .ok (c :: cs)

/-- The number denoted by a run of decimal digits. -/
def digitsValue (ds : List Char) : Nat :=
  ds.foldl (fun n c => 10 * n + (c.toNat - '0'.toNat)) 0

/-- The scan of one `%d` operand by `fmt.Sscanf` (`scanInt` followed by
`strconv.ParseInt(tok, 10, 64)`): leading blanks, an optional sign, then the
longest run of decimal digits; whatever follows the digits is left unread. -/
def scanInt (input : List Char) : Except String Int :=
  match skipSpace input with
  | .error e => .error e
  | .ok s =>
    if s = [] then .error "unexpected EOF"
    else
      let negative := s.head? = some '-'
      let s := if s.head? = some '+' ∨ s.head? = some '-' then s.tail else s
      if s = [] then .error "unexpected EOF"
      else
        let digits := s.takeWhile isDecimalDigit
        if digits = [] then .error "expected integer"
        else
          let value : Int :=
            if negative then -(digitsValue digits : Int) else (digitsValue digits : Int)
          if value < -9223372036854775808 ∨ value > 9223372036854775807 then
            .error "value out of range"
          else .ok value

/-- The statement `fmt.Sscanf(v, "%d", &x)` with its results discarded: the new
value of `x`, which keeps its old value `x` when the scan fails. -/
def sscanfInt (v : String) (x : Int) : Int :=
  match scanInt v.toList with
  | .ok i => i
  | .error _ => x

/-- Lines 230-233: the effective burst size. -/
def burstSizeOf (params : String → Option String) : Int :=
  let burstSize := 10
  match params "burst_size" with
  | some v => sscanfInt v burstSize
  | none => burstSize

/-- Lines 235-238: the effective pause duration in milliseconds. -/
def pauseDurationOf (params : String → Option String) : Int :=
  let pauseDuration := 2000
  match params "pause_duration" with
  | some v => sscanfInt v pauseDuration
  | none => pauseDuration

/-- Lines 251-263: the alert of index `i` with severity draw `sevIdx`. -/
def burstAlert (i burstSize : Int) (sevIdx : Nat) (ts : Int) : Except String Alert := do
  let severity ← goIndex severities sevIdx
  let burstIndex ← goMod i burstSize
  pure {
    ID := "burst-" ++ fmtInt i
    Message := "Burst alert #" ++ fmtInt i
    Severity := severity
    Priority := "high"
    Source := "scenario-burst"
    Timestamp := ts
    Details := [("scenario", .str "burst"),
                ("index", .int i),
                ("burstIndex", .int burstIndex)] }

/-- Line 245: the condition `i > 0 && i%burstSize == 0`, evaluated left to right. -/
def burstBoundary (i burstSize : Int) : Except String Bool :=
  if i > 0 then do
    let m ← goMod i burstSize
    pure (decide (m = 0))
  else pure false

/-- Line 273: the condition `i%burstSize != burstSize-1 && i < opts.Count-1`. -/
def burstDelay (i burstSize count : Int) : Except String Bool := do
  let m ← goMod i burstSize
  pure (decide (m ≠ burstSize - 1 ∧ i < count - 1))

/-- Lines 243-276: the loop `for i := 0; i < opts.Count; i++`, entered at index
`i` with `rem` iterations left before `i` reaches `opts.Count`. -/
def burstLoop (env : Env) (count interval burstSize pauseDuration : Int) :
    Nat → Nat → World → ScenarioResult → LoopExit
  | 0, _, w, result => .completed w result
  | rem + 1, i, w, result =>
    match burstBoundary i burstSize with
    | .error msg => .panicked w msg
    | .ok boundary =>
      let w :=
        if boundary then
          emit (emit w (.print ("Pausing for " ++ fmtInt pauseDuration ++ " ms after burst\n")))
            (.pause pauseDuration)
        else w
      let r := randIntn env w severities.length
      let t := timeNow env r.2
      match burstAlert i burstSize r.1 t.1 with
      | .error msg => .panicked t.2 msg
      | .ok alert =>
        let s := sendAlert env t.2 alert
        let result := record result s.1
        match burstDelay i burstSize count with
        | .error msg => .panicked s.2 msg
        | .ok delay =>
          let w := if delay then emit s.2 (.sleep interval) else s.2
          burstLoop env count interval burstSize pauseDuration rem (i + 1) w result

/-- The function `generateBurstScenario`. -/
def generateBurstScenario (env : Env) (opts : ScenarioOptions) : Run :=
  let burstSize := burstSizeOf opts.Params
  let pauseDuration := pauseDurationOf opts.Params
  let start := timeNow env {}
  match burstLoop env opts.Count opts.Interval burstSize pauseDuration
      opts.Count.toNat 0 start.2 {} with
  | .completed w result => finish env w start.1 result
  | .returned w result err => { trace := w.trace, outcome := .returned result (some err) }
  | .panicked w msg => { trace := w.trace, outcome := .panicked msg }

/-! ## Pooled scenarios (random and mixed)

Both scenarios run the same goroutines: the calling goroutine, which collects
`opts.Count` results and then waits for the workers, one producer, which feeds
the job channel and closes it, and `opts.Concurrency` workers.  A run is an
interleaving of their steps, chosen by the scheduler oracle among the
goroutines that are not blocked. -/

/-- Where a worker goroutine stands. -/
inductive WorkerPc where
  /-- At `for i := range jobs`, about to receive. -/
  | recv
  /-- Holding job `i`, about to build the alert and call the sink. -/
  | work (i : Nat)
  /-- About to run `results <- (err == nil)`. -/
  | report (ok : Bool)
  /-- Out of the loop, `wg.Done()` has run. -/
  | exited
  deriving DecidableEq, Repr

/-- Where the producer goroutine stands. -/
inductive ProducerPc where
  /-- At the loop head with index `i`: `jobs <- i` comes next, or
  `close(jobs)` when `i` has reached `opts.Count`. -/
  | loop (i : Nat)
  /-- Job `i` was queued, `time.Sleep` comes next. -/
  | pause (i : Nat)
  /-- Past `close(jobs)`. -/
  | exited
  deriving DecidableEq, Repr

/-- A goroutine of a pooled run. -/
inductive Tid where
  | main
  | producer
  | worker (w : Nat)
  deriving DecidableEq, Repr

/-- The state shared by the goroutines of a pooled run. -/
structure Pool where
  /-- Buffer of the channel `jobs`. -/
  jobs : List Nat
  /-- Whether `close(jobs)` has run. -/
  jobsClosed : Bool
  /-- Buffer of the channel `results`. -/
  results : List Bool
  producer : ProducerPc
  workers : List WorkerPc
  /-- The loop variable `i` of the collecting loop. -/
  collected : Nat
  result : ScenarioResult
  world : World
  deriving DecidableEq, Repr

/-- What distinguishes the two pooled scenarios. -/
structure PoolCfg where
  /-- The value `opts.Count`, which is also the capacity of both channels. -/
  count : Nat
  /-- The value `opts.Interval`. -/
  interval : Int
  /-- The worker body up to the sink call: the alert built for job `i`. -/
  body : Env → World → Nat → Except String (Alert × World)

/-- Result of letting one goroutine take a step. -/
inductive StepResult where
  /-- The goroutine cannot move. -/
  | blocked
  /-- The goroutine moved. -/
  | next (s : Pool)
  /-- The goroutine panicked, which ends the process. -/
  | panic (w : World) (msg : String)
  /-- The calling goroutine returned. -/
  | finished (run : Run)
  deriving DecidableEq, Repr

/-- One step of the producer: lines 194-203 (random), 342-351 (mixed). -/
def producerStep (cfg : PoolCfg) (s : Pool) : StepResult :=
  match s.producer with
  | .loop i =>
    if i < cfg.count then
      if s.jobs.length < cfg.count then
        .next { s with
          jobs := s.jobs ++ [i]
          producer := if cfg.interval > 0 then .pause i else .loop (i + 1) }
      else .blocked
    else .next { s with jobsClosed := true, producer := .exited }
  | .pause i =>
    .next { s with world := emit s.world (.sleep cfg.interval), producer := .loop (i + 1) }
  | .exited => .blocked

/-- One step of worker `w`: lines 167-189 (random), 315-338 (mixed). -/
def workerStep (env : Env) (cfg : PoolCfg) (s : Pool) (w : Nat) : StepResult :=
  match s.workers[w]? with
  | none => .blocked
  | some .recv =>
    match s.jobs with
    | i :: rest => .next { s with jobs := rest, workers := s.workers.set w (.work i) }
    | [] =>
      if s.jobsClosed then
        .next { s with
          workers := s.workers.set w .exited
          world := emit s.world (.workerDone w) }
      else .blocked
  | some (.work i) =>
    match cfg.body env s.world i with
    | .error msg => .panic s.world msg
    | .ok built =>
      let r := sendAlert env built.2 built.1
      .next { s with world := r.2, workers := s.workers.set w (.report r.1) }
  | some (.report ok) =>
    if s.results.length < cfg.count then
      .next { s with results := s.results ++ [ok], workers := s.workers.set w .recv }
    else .blocked
  | some .exited => .blocked

/-- One step of the calling goroutine: the collecting loop, then `wg.Wait()`,
`close(results)` and the closing lines, which run once every worker has left. -/
def mainStep (env : Env) (cfg : PoolCfg) (start : Int) (s : Pool) : StepResult :=
  if s.collected < cfg.count then
    match s.results with
    | ok :: rest =>
      .next { s with
        results := rest
        collected := s.collected + 1
        result := record s.result ok }
    | [] => .blocked
  else if s.workers.all (fun pc => decide (pc = .exited)) then
    .finished (finish env s.world start s.result)
  else .blocked

/-- One step of goroutine `t`. -/
def step (env : Env) (cfg : PoolCfg) (start : Int) (s : Pool) : Tid → StepResult
  | .main => mainStep env cfg start s
  | .producer => producerStep cfg s
  | .worker w => workerStep env cfg s w

/-- All goroutines of a pooled run. -/
def allTids (s : Pool) : List Tid :=
  .main :: .producer :: (List.range s.workers.length).map .worker

/-- The goroutines that can move. -/
def enabled (env : Env) (cfg : PoolCfg) (start : Int) (s : Pool) : List Tid :=
  (allTids s).filter (fun t => decide (step env cfg start s t ≠ .blocked))

/-- A pooled run from state `s`, at scheduling point `n`, for at most `fuel`
steps: the scheduler picks one of the goroutines that can move; when none can,
all goroutines are asleep and the runtime stops the process. -/
def poolRun (env : Env) (cfg : PoolCfg) (start : Int) : Nat → Nat → Pool → Run
  | 0, _, s => { trace := s.world.trace, outcome := .unfinished }
  | fuel + 1, n, s =>
    match enabled env cfg start s with
    | [] => { trace := s.world.trace, outcome := .deadlocked }
    | t :: ts =>
      match step env cfg start s ((t :: ts).getD (env.sched n % (ts.length + 1)) t) with
      | .blocked => { trace := s.world.trace, outcome := .deadlocked }
      | .next s2 => poolRun env cfg start fuel (n + 1) s2
      | .panic w msg => { trace := w.trace, outcome := .panicked msg }
      | .finished run => run

/-- A bound on the number of steps of a pooled run. -/
def poolFuel (count concurrency : Nat) : Nat := 6 * count + concurrency + 3

/-- The state once the workers and the producer are started: both channels
empty, every worker at its loop head. -/
def initPool (concurrency : Int) (w : World) : Pool :=
  { jobs := [], jobsClosed := false, results := [], producer := .loop 0,
    workers := List.replicate concurrency.toNat .recv, collected := 0, result := {},
    world := w }

/-- Lines 170-184: the worker body of the random scenario for job `i`. -/
def randomAlert (env : Env) (w : World) (i : Nat) : Except String (Alert × World) := do
  let sevIdx := randIntn env w severities.length
  let priIdx := randIntn env sevIdx.2 priorities.length
  let severity ← goIndex severities sevIdx.1
  let priority ← goIndex priorities priIdx.1
  let t := timeNow env priIdx.2
  pure ({
    ID := "random-" ++ fmtInt i
    Message := "Random alert #" ++ fmtInt i
    Severity := severity
    Priority := priority
    Source := "scenario-random"
    Timestamp := t.1
    Details := [("scenario", .str "random"), ("index", .int i)] }, t.2)

/-- The function `generateRandomScenario`.  `make(chan int, opts.Count)` panics
on a negative count. -/
def generateRandomScenario (env : Env) (opts : ScenarioOptions) : Run :=
  if opts.Count < 0 then
    { trace := [], outcome := .panicked "makechan: size out of range" }
  else
    let start := timeNow env {}
    poolRun env { count := opts.Count.toNat, interval := opts.Interval, body := randomAlert }
      start.1 (poolFuel opts.Count.toNat opts.Concurrency.toNat) 0
      (initPool opts.Concurrency start.2)

/-- An entry of the slice `templates` of the mixed scenario. -/
structure Template where
  severity : String
  priority : String
  message : String
  category : String
  deriving DecidableEq, Repr

/-- The slice `templates` of the mixed scenario. -/
def templates : List Template := [
  ⟨"info", "low", "System startup complete", "system"⟩,
  ⟨"info", "low", "User logged in", "user"⟩,
  ⟨"warning", "medium", "High CPU usage detected", "performance"⟩,
  ⟨"warning", "medium", "Low disk space", "system"⟩,
  ⟨"error", "high", "Database connection failed", "database"⟩,
  ⟨"error", "high", "Authentication failure", "security"⟩,
  ⟨"critical", "critical", "Service unavailable", "service"⟩,
  ⟨"critical", "critical", "Security breach detected", "security"⟩]

/-- Lines 319-333: the worker body of the mixed scenario for job `i`. -/
def mixedAlert (env : Env) (w : World) (i : Nat) : Except String (Alert × World) := do
  let r := randIntn env w templates.length
  let tmpl ← goIndex templates r.1
  let t := timeNow env r.2
  pure ({
    ID := "mixed-" ++ fmtInt i
    Message := tmpl.message ++ " (" ++ fmtInt i ++ ")"
    Severity := tmpl.severity
    Priority := tmpl.priority
    Source := "scenario-mixed"
    Timestamp := t.1
    Details := [("scenario", .str "mixed"), ("category", .str tmpl.category),
                ("index", .int i)] }, t.2)

/-- The function `generateMixedScenario`.  `make(chan int, opts.Count)` panics
on a negative count. -/
def generateMixedScenario (env : Env) (opts : ScenarioOptions) : Run :=
  let start := timeNow env {}
  if opts.Count < 0 then
    { trace := [], outcome := .panicked "makechan: size out of range" }
  else
    poolRun env { count := opts.Count.toNat, interval := opts.Interval, body := mixedAlert }
      start.1 (poolFuel opts.Count.toNat opts.Concurrency.toNat) 0
      (initPool opts.Concurrency start.2)

/-! ## Registry and dispatch -/

/-- The record `Scenario`. -/
structure Scenario where
  Name : String
  Description : String
  Generator : Env → ScenarioOptions → Run

/-- The map `scenarios`, as its list of entries. -/
def scenarios : List (String × Scenario) := [
  ("escalating",
    { Name := "escalating"
      Description := "Gradually increases alert severity over time"
      Generator := generateEscalatingScenario }),
  ("random",
    { Name := "random"
      Description := "Generates alerts with random severities and priorities"
      Generator := generateRandomScenario }),
  ("burst",
    { Name := "burst"
      Description := "Sends alerts in bursts with pauses in between"
      Generator := generateBurstScenario }),
  ("mixed",
    { Name := "mixed"
      Description := "Mix of different alert types and severities"
      Generator := generateMixedScenario })]

/-- The method `Generator.RunScenario`; the provider of the receiver is the
sink of `env`. -/
def RunScenario (env : Env) (name : String) (opts : ScenarioOptions) : Run :=
  match scenarios.lookup name with
  | none =>
    { trace := [], outcome := .returned {} (some (.errorf ("unknown scenario: " ++ name))) }
  | some scenario => scenario.Generator env opts

/-! ## Reading a trace -/

/-- The outcomes of the sink calls of a trace, in call order (`true`: nil error). -/
def sendOutcomes (tr : List Event) : List Bool :=
  tr.filterMap fun e => match e with
    | .send _ ok => some ok
    | _ => none

/-- The identifiers of the alerts handed to the sink, in call order. -/
def sentIDs (tr : List Event) : List String :=
  tr.filterMap fun e => match e with
    | .send a _ => some a.ID
    | _ => none

/-- The number of burst-boundary pauses of a trace. -/
def pauseCount (tr : List Event) : Nat :=
  tr.countP fun e => match e with
    | .pause _ => true
    | _ => false

/-- The worker goroutines that have left their loop, in the order they left. -/
def workersDone (tr : List Event) : List Nat :=
  tr.filterMap fun e => match e with
    | .workerDone w => some w
    | _ => none

/-- The identifiers of the alerts whose sink call comes right after a
burst-boundary pause. -/
def pausedBefore : List Event → List String
  | [] => []
  | e :: tl =>
    match e, tl with
    | .pause _, .send a _ :: _ => a.ID :: pausedBefore tl
    | _, _ => pausedBefore tl

/-- The delay events (interval sleeps and burst pauses) at the head of a
trace, up to its next sink call. -/
def takeDelays : List Event → List Event
  | [] => []
  | .send _ _ :: _ => []
  | .sleep ms :: tl => .sleep ms :: takeDelays tl
  | .pause ms :: tl => .pause ms :: takeDelays tl
  | _ :: tl => takeDelays tl

/-- For each sink call of a trace, in call order, the delay events between it
and the next sink call (or the end of the trace). -/
def delaysAfter : List Event → List (List Event)
  | [] => []
  | .send _ _ :: tl => takeDelays tl :: delaysAfter tl
  | _ :: tl => delaysAfter tl

/-- The identifiers of the alerts whose sink call is directly followed by an
interval sleep. -/
def sleptAfter : List Event → List String
  | [] => []
  | e :: tl =>
    match e, tl with
    | .send a _, .sleep _ :: _ => a.ID :: sleptAfter tl
    | _, _ => sleptAfter tl

/-- The alerts handed to the sink, in call order. -/
def sentAlerts (tr : List Event) : List Alert :=
  tr.filterMap fun e => match e with
    | .send a _ => some a
    | _ => none

/-- The enumerated severities of the data model. -/
def severityNames : List String := ["info", "warning", "error", "critical"]

/-- The enumerated priorities of the data model. -/
def priorityNames : List String := ["low", "medium", "high", "critical"]

/-- Well-formedness of an alert: a non-empty identifier, a severity and a
priority among the enumerated values. -/
def wellFormed (a : Alert) : Bool :=
  decide (a.ID ≠ "" ∧ a.Severity ∈ severityNames ∧ a.Priority ∈ priorityNames)

/-- The world in which a sequential loop is left. -/
def LoopExit.world : LoopExit → World
  | .completed w _ => w
  | .returned w _ _ => w
  | .panicked w _ => w

/-- The trace after a goroutine of a pooled run in state `s` took, or failed to
take, a step. -/
def stepTrace (s : Pool) : StepResult → List Event
  | .blocked => s.world.trace
  | .next s2 => s2.world.trace
  | .panic w _ => w.trace
  | .finished run => run.trace

/-- The position of a name in a table, when the name is in the table. -/
def rankIn (xs : List String) (x : String) : Option Nat :=
  if x ∈ xs then some (xs.indexOf x) else none

/-- The severity index of an alert: the position of its severity in the slice
`severities`. -/
def severityRank (a : Alert) : Option Nat := rankIn severities a.Severity

/-- The priority index of an alert: the position of its priority in the slice
`priorities`. -/
def priorityRank (a : Alert) : Option Nat := rankIn priorities a.Priority

/-! ## Reference descriptions

Closed forms against which the loops are compared. -/

/-- Reference form of the alert of index `i` in an escalating run of `N`
alerts: severity and priority are the entries `i * 4 / N` of the two tables,
and the time stamp is clock reading `i + 1` (reading 0 is `start`). -/
def escalatingAlertAt (env : Env) (N i : Nat) : Alert :=
  { ID := "escalating-" ++ fmtInt i
    Message := "Escalating alert #" ++ fmtInt i
    Severity := severities.getD (i * 4 / N) ""
    Priority := priorities.getD (i * 4 / N) ""
    Source := "scenario-escalating"
    Timestamp := env.now (i + 1)
    Details := [("scenario", .str "escalating"),
                ("progress", .float ((((i : Nat) : Int) : ℚ) / (((N : Nat) : Int) : ℚ))),
                ("index", .int i)] }

/-- Reference form of the alert of index `i` in a burst run: the severity comes
from the `i`-th random draw and the time stamp from clock reading `i + 1`
(reading 0 is `start`). -/
def burstAlertAt (env : Env) (burstSize : Int) (i : Nat) : Alert :=
  { ID := "burst-" ++ fmtInt i
    Message := "Burst alert #" ++ fmtInt i
    Severity := severities.getD (env.rand i % severities.length) ""
    Priority := "high"
    Source := "scenario-burst"
    Timestamp := env.now (i + 1)
    Details := [("scenario", .str "burst"),
                ("index", .int i),
                ("burstIndex", .int (Int.tmod i burstSize))] }

/-- Reference schedule of iteration `i` of a burst run: the pause (announced on
standard output) when `i` is a burst boundary, the sink call, then the interval
delay unless `i` ends its burst or the run. -/
def burstBlock (env : Env) (count interval burstSize pauseDuration : Int) (i : Nat) :
    List Event :=
  (if (i : Int) > 0 ∧ Int.tmod i burstSize = 0 then
    [Event.print ("Pausing for " ++ fmtInt pauseDuration ++ " ms after burst\n"),
     Event.pause pauseDuration]
   else []) ++
  [Event.send (burstAlertAt env burstSize i) (env.sink i (burstAlertAt env burstSize i))] ++
  (if Int.tmod i burstSize ≠ burstSize - 1 ∧ (i : Int) < count - 1 then
    [Event.sleep interval]
   else [])

/-- Reference reading of a base-10 integer literal: an optional sign followed
by one or more decimal digits, and nothing else. -/
def intLiteral (cs : List Char) : Option Int :=
  match cs with
  | '-' :: ds =>
    if ds ≠ [] ∧ ds.all isDecimalDigit then some (-(digitsValue ds : Int)) else none
  | '+' :: ds =>
    if ds ≠ [] ∧ ds.all isDecimalDigit then some (digitsValue ds : Int) else none
  | ds =>
    if ds ≠ [] ∧ ds.all isDecimalDigit then some (digitsValue ds : Int) else none

/-- Whether a text starts with an integer: a decimal digit, or a sign followed
by a decimal digit. -/
def startsWithInt (cs : List Char) : Bool :=
  match cs with
  | [] => false
  | c :: rest =>
    isDecimalDigit c || ((c == '+' || c == '-') && (rest.head?.any isDecimalDigit))

/-- Whether a 64-bit `int` can hold the value. -/
def fitsInt64 (z : Int) : Bool :=
  decide (-9223372036854775808 ≤ z ∧ z ≤ 9223372036854775807)


/-! ## Invariants of a pooled run -/

/-- The number of jobs the producer has queued so far. -/
def pushed (count : Nat) : ProducerPc → Nat
  | .loop i => i
  | .pause i => i + 1
  | .exited => count

/-- The number of jobs the producer has still to queue. -/
def toPush (count : Nat) : ProducerPc → Nat
  | .loop i => count - i
  | .pause i => count - (i + 1)
  | .exited => 0

/-- The number of steps the producer has still to take. -/
def producerPot (count : Nat) : ProducerPc → Nat
  | .loop i => 2 * (count - i) + 1
  | .pause i => 2 * (count - (i + 1)) + 2
  | .exited => 0

/-- The number of steps a worker takes from where it stands to its exit, if it
receives no further job. -/
def workerPot : WorkerPc → Nat
  | .recv => 1
  | .work _ => 3
  | .report _ => 2
  | .exited => 0

/-- Indicator of a worker that holds a job it has not yet sent to the sink. -/
def isWork : WorkerPc → Nat
  | .work _ => 1
  | _ => 0

/-- Indicator of a worker that holds a sink outcome it has not yet reported. -/
def isReport : WorkerPc → Nat
  | .report _ => 1
  | _ => 0

/-- The sum of a measure over the workers. -/
def total (f : WorkerPc → Nat) (ws : List WorkerPc) : Nat := (ws.map f).sum

/-- A bound on the number of steps left in a pooled run. -/
def potential (cfg : PoolCfg) (s : Pool) : Nat :=
  producerPot cfg.count s.producer + 3 * (s.jobs.length + toPush cfg.count s.producer)
    + total workerPot s.workers + (cfg.count - s.collected) + 1

/-- The invariant of a pooled run: every job queued is in exactly one place (the
job channel, a worker, the result channel, or counted), the job channel is
closed exactly when the producer is gone, workers leave only an empty closed
channel, and the counters and the trace agree with the sink calls made. -/
structure PoolInv (cfg : PoolCfg) (s : Pool) : Prop where
  pushed_le : pushed cfg.count s.producer ≤ cfg.count
  conserve : pushed cfg.count s.producer
    = s.jobs.length + total isWork s.workers + total isReport s.workers
      + s.results.length + s.collected
  closed_iff : s.jobsClosed = true ↔ s.producer = .exited
  exited_jobs : WorkerPc.exited ∈ s.workers → s.jobs = [] ∧ s.jobsClosed = true
  counted : s.result.Sent + s.result.Failed = s.collected
  nonneg : 0 ≤ s.result.Sent ∧ 0 ≤ s.result.Failed
  rate_zero : s.result.Rate = 0
  calls_eq : s.world.calls = total isReport s.workers + s.results.length + s.collected
  sends_eq : (sendOutcomes s.world.trace).length = s.world.calls
  done_logged : ∀ w, s.workers[w]? = some .exited → w ∈ workersDone s.world.trace

/-- No failure is recorded or under way. -/
structure AllOk (s : Pool) : Prop where
  failed_zero : s.result.Failed = 0
  results_ok : ∀ b ∈ s.results, b = true
  reports_ok : WorkerPc.report false ∉ s.workers

/-- The worker body builds its alert without a panic, a sink call or an event. -/
def BodyOk (cfg : PoolCfg) : Prop :=
  ∀ (env : Env) (w : World) (i : Nat), ∃ (a : Alert) (w2 : World),
    cfg.body env w i = .ok (a, w2) ∧ w2.calls = w.calls ∧ w2.trace = w.trace

/-- An empty run: a nil error, zero counters and rate, the duration between
the first two clock readings, and no sink call. -/
def EmptyRun (env : Env) (run : Run) : Prop :=
  ∃ res, run.outcome = .returned res none ∧ res.Sent = 0 ∧ res.Failed = 0 ∧ res.Rate = 0 ∧
    res.Duration = env.now 1 - env.now 0 ∧ sendOutcomes run.trace = []

/-- A pooled run against a sink that never fails: a nil error, every alert
sent, none failed, exactly `count` sink calls, and the exit of each of the
`workers` worker goroutines recorded before the return. -/
def AllSent (count : Int) (workers : Nat) (run : Run) : Prop :=
  (∃ res, run.outcome = .returned res none ∧ res.Sent = count ∧ res.Failed = 0) ∧
    ((sendOutcomes run.trace).length : Int) = count ∧
    ∀ v, v < workers → v ∈ workersDone run.trace

/-! ## Sample inputs -/

/-- An environment around the given sink and cancellation signal, with fixed
random source, clock and scheduler. -/
def sampleEnv (sink : Nat → Alert → Bool) (done : Nat → Bool) : Env :=
  { sink := sink, done := done, rand := fun n => n, now := fun n => 1000 * n,
    sched := fun n => n }

/-- Options for `count` alerts with no parameters, interval 5 and two workers. -/
def sampleOpts (count : Int) : ScenarioOptions :=
  { Count := count, Interval := 5, Concurrency := 2, Params := fun _ => none }

/-- Options for `count` alerts with interval 0, `workers` workers and no parameters. -/
def poolOpts (count workers : Int) : ScenarioOptions :=
  { Count := count, Interval := 0, Concurrency := workers, Params := fun _ => none }

/-- A sink that fails on the odd-numbered calls: the first, the third, and so
on (call `n`, counted from 0, is the `n + 1`-st). -/
def oddFailingSink (n : Nat) (_ : Alert) : Bool := decide (n % 2 = 1)

/-- A sink that never fails. -/
def reliableSink (_ : Nat) (_ : Alert) : Bool := true

/-- A cancellation signal that never fires. -/
def neverDone (_ : Nat) : Bool := false

/-- A cancellation signal that fires from check `k` on. -/
def doneFrom (k : Nat) (n : Nat) : Bool := decide (k ≤ n)

/-- Parameters that set the burst size to the text `v` and nothing else. -/
def burstSizeParams (v : String) (key : String) : Option String :=
  if key = "burst_size" then some v else none

/-- Options for `count` alerts with interval 5, two workers and the given parameters. -/
def paramOpts (count : Int) (params : String → Option String) : ScenarioOptions :=
  { Count := count, Interval := 5, Concurrency := 2, Params := params }

/-- Parameters that set the burst size to the text `size`, the pause duration
to the text `pause`, and nothing else. -/
def burstParams (size pause : String) (key : String) : Option String :=
  if key = "burst_size" then some size
  else if key = "pause_duration" then some pause
  else none

/-! ## Theorems: the escalating scenario -/

theorem sendOutcomes_append (a b : List Event) :
    sendOutcomes (a ++ b) = sendOutcomes a ++ sendOutcomes b := by
  simp [sendOutcomes, List.filterMap_append]

theorem sentIDs_append (a b : List Event) : sentIDs (a ++ b) = sentIDs a ++ sentIDs b := by
  simp [sentIDs, List.filterMap_append]

theorem tdiv_natCast (a b : Nat) : Int.tdiv (a : Int) (b : Int) = ((a / b : Nat) : Int) := rfl

theorem bucket_lt {i N : Nat} (h : i < N) : i * 4 / N < 4 := by
  apply Nat.div_lt_of_lt_mul
  omega

theorem severities_length : severities.length = 4 := rfl

theorem priorities_length : priorities.length = 4 := rfl

theorem severityIndex_eq {i N : Nat} (h : i < N) :
    severityIndex i N = .ok ((i * 4 / N : Nat) : Int) := by
  have hN : (N : Int) ≠ 0 := by omega
  have hlt := bucket_lt h
  have hq : Int.tdiv ((i : Int) * (4 : Nat)) N = ((i * 4 / N : Nat) : Int) := by
    rw [← tdiv_natCast]; push_cast; rfl
  have hge : ¬ ((i * 4 / N : Nat) : Int) ≥ ((4 : Nat) : Int) := by
    intro hc
    have := Int.ofNat_le.mp hc
    omega
  simp only [severityIndex, goDiv, severities_length, hN, if_false, bind, Except.bind, pure,
    Except.pure, hq, if_neg hge]

theorem priorityIndex_eq {i N : Nat} (h : i < N) :
    priorityIndex i N = .ok ((i * 4 / N : Nat) : Int) := by
  have hN : (N : Int) ≠ 0 := by omega
  have hlt := bucket_lt h
  have hq : Int.tdiv ((i : Int) * (4 : Nat)) N = ((i * 4 / N : Nat) : Int) := by
    rw [← tdiv_natCast]; push_cast; rfl
  have hge : ¬ ((i * 4 / N : Nat) : Int) ≥ ((4 : Nat) : Int) := by
    intro hc
    have := Int.ofNat_le.mp hc
    omega
  simp only [priorityIndex, goDiv, priorities_length, hN, if_false, bind, Except.bind, pure,
    Except.pure, hq, if_neg hge]

theorem goIndex_natCast {α : Type} (xs : List α) (k : Nat) (h : k < xs.length) :
    goIndex xs (k : Int) = .ok (xs.get ⟨k, h⟩) := by
  have h1 : (0 : Int) ≤ k ∧ (k : Int) < xs.length := ⟨by omega, by omega⟩
  simp only [goIndex, h1, and_self, if_true, Int.toNat_ofNat]
  rw [List.getElem?_eq_getElem h]
  rfl

/-- The alert of index `i < N` is built without a panic, from the bucket
`i * 4 / N` in both tables. -/
theorem escalatingAlert_ok {i N : Nat} (h : i < N) (ts : Int) :
    ∃ a, escalatingAlert i N ts = .ok a ∧ a.ID = "escalating-" ++ fmtInt i ∧
      goIndex severities ((i * 4 / N : Nat) : Int) = .ok a.Severity ∧
      goIndex priorities ((i * 4 / N : Nat) : Int) = .ok a.Priority := by
  have hs := goIndex_natCast severities (i * 4 / N) (by rw [severities_length]; exact bucket_lt h)
  have hp := goIndex_natCast priorities (i * 4 / N) (by rw [priorities_length]; exact bucket_lt h)
  simp only [escalatingAlert, severityIndex_eq h, priorityIndex_eq h, hs, hp, bind, Except.bind,
    pure, Except.pure]
  exact ⟨_, rfl, rfl, rfl, rfl⟩

theorem sendOutcomes_send (a : Alert) (ok : Bool) (tl : List Event) :
    sendOutcomes (Event.send a ok :: tl) = ok :: sendOutcomes tl := rfl

theorem sendOutcomes_sleep (ms : Int) (tl : List Event) :
    sendOutcomes (Event.sleep ms :: tl) = sendOutcomes tl := rfl

theorem sentIDs_send (a : Alert) (ok : Bool) (tl : List Event) :
    sentIDs (Event.send a ok :: tl) = a.ID :: sentIDs tl := rfl

theorem sentIDs_sleep (ms : Int) (tl : List Event) :
    sentIDs (Event.sleep ms :: tl) = sentIDs tl := rfl

theorem record_Sent (r : ScenarioResult) (ok : Bool) :
    (record r ok).Sent = r.Sent + (if ok then 1 else 0) := by
  cases ok <;> simp [record]

theorem record_Failed (r : ScenarioResult) (ok : Bool) :
    (record r ok).Failed = r.Failed + (if ok then 0 else 1) := by
  cases ok <;> simp [record]

theorem record_Duration (r : ScenarioResult) (ok : Bool) :
    (record r ok).Duration = r.Duration := by
  cases ok <;> simp [record]

theorem record_Rate (r : ScenarioResult) (ok : Bool) : (record r ok).Rate = r.Rate := by
  cases ok <;> simp [record]

/-- The first `m` iterations of the escalating loop, when none of their
cancellation checks fires: they make `m` sink calls, for the indices
`i, ..., i + m - 1`, and count every outcome on one side of the result. -/
theorem escalatingLoop_steps (env : Env) (total : Nat) (interval : Int) (m : Nat) :
    ∀ (rem i : Nat) (w : World) (result : ScenarioResult),
      m ≤ rem → i + rem ≤ total → (∀ j, j < m → env.done (w.checks + j) = false) →
      ∃ (w2 : World) (result2 : ScenarioResult) (evs : List Event),
        escalatingLoop env total interval rem i w result
          = escalatingLoop env total interval (rem - m) (i + m) w2 result2 ∧
        w2.checks = w.checks + m ∧ w2.calls = w.calls + m ∧ w2.reads = w.reads + m ∧
        w2.trace = w.trace ++ evs ∧
        (sendOutcomes evs).length = m ∧
        sentIDs evs = (List.range m).map (fun j => "escalating-" ++ fmtInt ((i + j : Nat) : Int)) ∧
        result2.Sent = result.Sent + (sendOutcomes evs).count true ∧
        result2.Failed = result.Failed + (sendOutcomes evs).count false ∧
        result2.Duration = result.Duration ∧ result2.Rate = result.Rate ∧
        (∀ p : Nat → Bool, (∀ n a, env.sink n a = p n) →
          sendOutcomes evs = (List.range m).map (fun j => p (w.calls + j))) := by
  induction m with
  | zero =>
    intro rem i w result _ _ _
    exact ⟨w, result, [], by simp, by simp, by simp, by simp, by simp, by simp [sendOutcomes],
      by simp [sentIDs], by simp [sendOutcomes], by simp [sendOutcomes], rfl, rfl,
      by intro p _; simp [sendOutcomes]⟩
  | succ m ih =>
    intro rem i w result hm hi hdone
    obtain ⟨rem1, rfl⟩ : ∃ r, rem = r + 1 := ⟨rem - 1, by omega⟩
    have hd0 : env.done w.checks = false := by simpa using hdone 0 (by omega)
    obtain ⟨a, ha, haid, -, -⟩ := escalatingAlert_ok (show i < total by omega) (env.now w.reads)
    -- the world and the result after one iteration
    let ok := env.sink w.calls a
    let tail1 : List Event := if (i : Int) < (total : Int) - 1 then [Event.sleep interval] else []
    let w1 : World :=
      { calls := w.calls + 1, checks := w.checks + 1, draws := w.draws, reads := w.reads + 1,
        trace := w.trace ++ [Event.send a ok] ++ tail1 }
    have hstep : escalatingLoop env total interval (rem1 + 1) i w result
        = escalatingLoop env total interval rem1 (i + 1) w1 (record result ok) := by
      rw [escalatingLoop]
      simp only [ctxDone, hd0, timeNow, ha, sendAlert, emit]
      by_cases hc : (i : Int) < (total : Int) - 1
      · simp [hc, w1, tail1, ok]
      · simp [hc, w1, tail1, ok]
    obtain ⟨w2, result2, evs, hrun, hchecks, hcalls, hreads, htrace, hlen, hids, hsent, hfailed,
        hdur, hrate, hp⟩ :=
      ih rem1 (i + 1) w1 (record result ok) (by omega) (by omega)
        (by intro j hj; have := hdone (j + 1) (by omega); simpa [w1, Nat.add_assoc, Nat.add_comm 1 j] using this)
    have hso : sendOutcomes ([Event.send a ok] ++ tail1 ++ evs) = ok :: sendOutcomes evs := by
      by_cases hc : (i : Int) < (total : Int) - 1
      · simp [tail1, hc, sendOutcomes_send, sendOutcomes_sleep]
      · simp [tail1, hc, sendOutcomes_send]
    have hsi : sentIDs ([Event.send a ok] ++ tail1 ++ evs) = a.ID :: sentIDs evs := by
      by_cases hc : (i : Int) < (total : Int) - 1
      · simp [tail1, hc, sentIDs_send, sentIDs_sleep]
      · simp [tail1, hc, sentIDs_send]
    refine ⟨w2, result2, [Event.send a ok] ++ tail1 ++ evs, ?_, ?_, ?_, ?_, ?_, ?_, ?_, ?_, ?_,
      ?_, ?_, ?_⟩
    · rw [hstep, hrun]
      congr 1 <;> omega
    · rw [hchecks]; simp only [w1]; omega
    · rw [hcalls]; simp only [w1]; omega
    · rw [hreads]; simp only [w1]; omega
    · rw [htrace]; simp only [w1, List.append_assoc]
    · rw [hso, List.length_cons, hlen]
    · rw [hsi, hids, haid, List.range_succ_eq_map, List.map_cons, List.map_map]
      simp only [Nat.add_zero, List.cons.injEq, true_and]
      apply List.map_congr_left
      intro j _
      simp only [Function.comp, Nat.succ_eq_add_one]
      congr 3
      omega
    · rw [hsent, record_Sent, hso]
      cases ok <;> simp [List.count_cons]
      ring
    · rw [hfailed, record_Failed, hso]
      cases ok <;> simp [List.count_cons]
      ring
    · rw [hdur, record_Duration]
    · rw [hrate, record_Rate]
    · intro p hsink
      rw [hso, hp p hsink, List.range_succ_eq_map, List.map_cons, List.map_map]
      simp only [Nat.add_zero, List.cons.injEq]
      refine ⟨hsink _ _, ?_⟩
      apply List.map_congr_left
      intro j _
      simp only [Function.comp, Nat.succ_eq_add_one, w1]
      congr 1
      omega

theorem count_true_add_count_false (l : List Bool) :
    l.count true + l.count false = l.length := by
  induction l with
  | nil => rfl
  | cons b tl ih => cases b <;> simp [List.count_cons] <;> omega

theorem finish_trace (env : Env) (w : World) (start : Int) (result : ScenarioResult) :
    (finish env w start result).trace = w.trace := rfl

/-- The closing lines return a nil error and leave the two counters alone; the
duration is the difference of two clock readings, and the rate of a run that
sent nothing is the zero it started with. -/
theorem finish_outcome (env : Env) (w : World) (start : Int) (result : ScenarioResult) :
    ∃ res, (finish env w start result).outcome = .returned res none ∧
      res.Sent = result.Sent ∧ res.Failed = result.Failed ∧
      res.Duration = env.now w.reads - start ∧
      (result.Sent = 0 → result.Rate = 0 → res.Rate = 0) := by
  by_cases h : env.now w.reads - start > 0
  · refine ⟨ScenarioResult.mk result.Sent result.Failed (env.now w.reads - start)
        ((result.Sent : ℚ) / (((env.now w.reads - start : Int) : ℚ) / 1000000000)),
      by simp only [finish, timeNow, h, if_true], rfl, rfl, rfl, ?_⟩
    intro h0 _
    simp [h0]
  · refine ⟨ScenarioResult.mk result.Sent result.Failed (env.now w.reads - start) result.Rate,
      by simp only [finish, timeNow, h, if_false], rfl, rfl, rfl, ?_⟩
    intro _ h1
    exact h1

/-- C1. Escalating scenario accounting: when the count is non-negative and no
cancellation check ever fires, the run returns a nil error after exactly
`Count` sink calls, `Failed` is the number of calls that returned an error,
`Sent` the number that returned nil, and they add up to `Count`.  For a sink
whose outcome is a function `p` of the call number, the outcomes are
`p 0, ..., p (Count - 1)` in this order, so that `Failed` counts the call numbers
at which `p` fails. -/
theorem escalating_accounting (env : Env) (opts : ScenarioOptions)
    (hcount : 0 ≤ opts.Count) (hctx : ∀ n, env.done n = false) :
    ∃ res, (generateEscalatingScenario env opts).outcome = .returned res none ∧
      ((sendOutcomes (generateEscalatingScenario env opts).trace).length : Int) = opts.Count ∧
      res.Failed = (sendOutcomes (generateEscalatingScenario env opts).trace).count false ∧
      res.Sent = (sendOutcomes (generateEscalatingScenario env opts).trace).count true ∧
      res.Sent + res.Failed = opts.Count ∧
      (∀ p : Nat → Bool, (∀ n a, env.sink n a = p n) →
        sendOutcomes (generateEscalatingScenario env opts).trace
            = (List.range opts.Count.toNat).map p ∧
        res.Failed = ((List.range opts.Count.toNat).map p).count false) := by
  obtain ⟨n, hn⟩ : ∃ n : Nat, opts.Count = n := ⟨opts.Count.toNat, (Int.toNat_of_nonneg hcount).symm⟩
  obtain ⟨w2, result2, evs, hrun, -, -, -, htrace, hlen, -, hsent, hfailed, -, -, hp⟩ :=
    escalatingLoop_steps env n opts.Interval n n 0 (timeNow env {}).2 {} (le_refl n) (by omega)
      (fun j _ => hctx _)
  have hloop : escalatingLoop env opts.Count opts.Interval opts.Count.toNat 0 (timeNow env {}).2 {}
      = .completed w2 result2 := by
    rw [hn, Int.toNat_ofNat, hrun, Nat.sub_self, escalatingLoop]
  have hgen : generateEscalatingScenario env opts = finish env w2 (timeNow env {}).1 result2 := by
    simp only [generateEscalatingScenario, hloop]
  have htr : sendOutcomes (generateEscalatingScenario env opts).trace = sendOutcomes evs := by
    rw [hgen, finish_trace, htrace]
    simp [timeNow, sendOutcomes]
  obtain ⟨res, hres, hs, hf, -, -⟩ := finish_outcome env w2 (timeNow env {}).1 result2
  have hS : res.Sent = (sendOutcomes evs).count true := by
    rw [hs, hsent]; simp
  have hF : res.Failed = (sendOutcomes evs).count false := by
    rw [hf, hfailed]; simp
  refine ⟨res, by rw [hgen, hres], ?_, ?_, ?_, ?_, ?_⟩
  · rw [htr, hlen, hn]
  · rw [htr, hF]
  · rw [htr, hS]
  · rw [hS, hF, hn, ← hlen, ← count_true_add_count_false (sendOutcomes evs)]
    push_cast
    rfl
  · intro p hsink
    have := hp p hsink
    simp only [timeNow, Nat.zero_add] at this
    rw [htr, hn, Int.toNat_ofNat, hF, this]
    exact ⟨rfl, rfl⟩

theorem escalating_accounting_witness :
    (0 : Int) ≤ (sampleOpts 5).Count ∧ (∀ n, (sampleEnv oddFailingSink neverDone).done n = false) ∧
    ∃ res, (generateEscalatingScenario (sampleEnv oddFailingSink neverDone)
        (sampleOpts 5)).outcome = .returned res none ∧ res.Failed = 3 ∧ res.Sent = 2 := by
  obtain ⟨res, hout, -, -, -, hsum, hp⟩ :=
    escalating_accounting (sampleEnv oddFailingSink neverDone) (sampleOpts 5) (by decide)
      (fun _ => rfl)
  obtain ⟨-, hfail⟩ := hp (fun n => decide (n % 2 = 1)) (fun _ _ => rfl)
  have h3 : res.Failed = 3 := by rw [hfail]; rfl
  have h5 : (sampleOpts 5).Count = 5 := rfl
  exact ⟨by decide, fun _ => rfl, res, hout, h3, by omega⟩

/-- The index formula of the escalating scenario: for `i <= j < N` the severity
index computed for `i` in a run of `N` is `i * 4 / N` (natural-number division,
the floor of the quotient), it is at most 3, it is at most the one computed for
`j`, the priority index is computed to the same value, and the alert built for
`i` takes its severity and its priority from the two tables at this index. -/
theorem escalatingIndex_formula (N i j : Nat) (hij : i ≤ j) (hj : j < N) :
    severityIndex i N = .ok ((i * 4 / N : Nat) : Int) ∧
    i * 4 / N ≤ 3 ∧
    i * 4 / N ≤ j * 4 / N ∧
    priorityIndex i N = severityIndex i N ∧
    ∀ ts, ∃ a, escalatingAlert i N ts = .ok a ∧
      goIndex severities ((i * 4 / N : Nat) : Int) = .ok a.Severity ∧
      goIndex priorities ((i * 4 / N : Nat) : Int) = .ok a.Priority := by
  have hi : i < N := by omega
  refine ⟨severityIndex_eq hi, ?_, ?_, ?_, ?_⟩
  · have := bucket_lt hi
    omega
  · exact Nat.div_le_div_right (by omega)
  · rw [severityIndex_eq hi, priorityIndex_eq hi]
  · intro ts
    obtain ⟨a, ha, -, hs, hp⟩ := escalatingAlert_ok hi ts
    exact ⟨a, ha, hs, hp⟩

/-- C7. Escalating cancellation: when the cancellation check before alert `k`
(`k < Count`) is the first to fire, the run makes exactly the `k` sink calls of
the indices `0, ..., k - 1` and none after, and returns the cancellation error
with the counters of these `k` calls, so that `Sent + Failed = k <= Count`. -/
theorem escalating_cancellation (env : Env) (opts : ScenarioOptions) (k : Nat)
    (hk : (k : Int) < opts.Count) (hbefore : ∀ j, j < k → env.done j = false)
    (hat : env.done k = true) :
    ∃ res, (generateEscalatingScenario env opts).outcome = .returned res (some .ctxErr) ∧
      sentIDs (generateEscalatingScenario env opts).trace
        = (List.range k).map (fun j => "escalating-" ++ fmtInt ((j : Nat) : Int)) ∧
      (sendOutcomes (generateEscalatingScenario env opts).trace).length = k ∧
      res.Sent = (sendOutcomes (generateEscalatingScenario env opts).trace).count true ∧
      res.Failed = (sendOutcomes (generateEscalatingScenario env opts).trace).count false ∧
      res.Sent + res.Failed = k ∧ (k : Int) ≤ opts.Count := by
  obtain ⟨n, hn⟩ : ∃ n : Nat, opts.Count = n :=
    ⟨opts.Count.toNat, (Int.toNat_of_nonneg (by omega)).symm⟩
  have hkn : k < n := by omega
  obtain ⟨w2, result2, evs, hrun, hchecks, -, -, htrace, hlen, hids, hsent, hfailed, -, -, -⟩ :=
    escalatingLoop_steps env n opts.Interval k n 0 (timeNow env {}).2 {} (by omega) (by omega)
      (fun j hj => by simpa [timeNow] using hbefore j hj)
  obtain ⟨r, hr⟩ : ∃ r, n - k = r + 1 := ⟨n - k - 1, by omega⟩
  have hw2 : env.done w2.checks = true := by
    rw [hchecks]; simpa [timeNow] using hat
  have hloop : escalatingLoop env opts.Count opts.Interval opts.Count.toNat 0 (timeNow env {}).2 {}
      = .returned { w2 with checks := w2.checks + 1 } result2 .ctxErr := by
    rw [hn, Int.toNat_ofNat, hrun, hr, escalatingLoop]
    simp only [ctxDone, hw2, if_true]
  have hgen : generateEscalatingScenario env opts
      = { trace := w2.trace, outcome := .returned result2 (some .ctxErr) } := by
    simp only [generateEscalatingScenario, hloop]
  have htr : (generateEscalatingScenario env opts).trace = evs := by
    rw [hgen]
    simp [htrace, timeNow]
  have hS : result2.Sent = (sendOutcomes evs).count true := by
    rw [hsent]; simp
  have hF : result2.Failed = (sendOutcomes evs).count false := by
    rw [hfailed]; simp
  refine ⟨result2, by rw [hgen], ?_, ?_, ?_, ?_, ?_, by omega⟩
  · rw [htr, hids]
    simp
  · rw [htr, hlen]
  · rw [htr, hS]
  · rw [htr, hF]
  · rw [hS, hF, ← hlen, ← count_true_add_count_false (sendOutcomes evs)]
    push_cast
    rfl

theorem escalating_cancellation_witness :
    ((2 : Nat) : Int) < (sampleOpts 5).Count ∧
    (∀ j, j < 2 → (sampleEnv oddFailingSink (doneFrom 2)).done j = false) ∧
    (sampleEnv oddFailingSink (doneFrom 2)).done 2 = true ∧
    ∃ res, (generateEscalatingScenario (sampleEnv oddFailingSink (doneFrom 2))
        (sampleOpts 5)).outcome = .returned res (some .ctxErr) ∧
      (sendOutcomes (generateEscalatingScenario (sampleEnv oddFailingSink (doneFrom 2))
        (sampleOpts 5)).trace).length = 2 ∧
      res.Sent + res.Failed = 2 := by
  have hb : ∀ j, j < 2 → (sampleEnv oddFailingSink (doneFrom 2)).done j = false := by
    intro j hj
    simp only [sampleEnv, doneFrom, decide_eq_false_iff_not]
    omega
  obtain ⟨res, hout, -, hlen, -, -, hsum, -⟩ :=
    escalating_cancellation (sampleEnv oddFailingSink (doneFrom 2)) (sampleOpts 5) 2 (by decide)
      hb (by decide)
  exact ⟨by decide, hb, by decide, res, hout, hlen, hsum⟩

/-! ## Theorems: the burst scenario -/

theorem goIndex_getD {α : Type} (xs : List α) (k : Nat) (d : α) (h : k < xs.length) :
    goIndex xs (k : Int) = .ok (xs.getD k d) := by
  rw [goIndex_natCast xs k h, List.getD_eq_getElem xs d h]
  rfl

theorem burstAlert_ok (env : Env) (b : Int) (hb : b ≠ 0) (i : Nat) :
    burstAlert i b (env.rand i % severities.length) (env.now (i + 1))
      = .ok (burstAlertAt env b i) := by
  have hlt : env.rand i % severities.length < severities.length :=
    Nat.mod_lt _ (by rw [severities_length]; omega)
  simp only [burstAlert, goIndex_getD severities _ "" hlt, goMod, hb, if_false, bind,
    Except.bind, pure, Except.pure]
  rfl

theorem foldl_record_Sent (oks : List Bool) (r : ScenarioResult) :
    (oks.foldl record r).Sent = r.Sent + oks.count true := by
  induction oks generalizing r with
  | nil => simp
  | cons ok tl ih =>
    rw [List.foldl_cons, ih, record_Sent]
    cases ok <;> simp [List.count_cons]
    ring

theorem foldl_record_Failed (oks : List Bool) (r : ScenarioResult) :
    (oks.foldl record r).Failed = r.Failed + oks.count false := by
  induction oks generalizing r with
  | nil => simp
  | cons ok tl ih =>
    rw [List.foldl_cons, ih, record_Failed]
    cases ok <;> simp [List.count_cons]
    ring

theorem foldl_record_Duration (oks : List Bool) (r : ScenarioResult) :
    (oks.foldl record r).Duration = r.Duration := by
  induction oks generalizing r with
  | nil => simp
  | cons ok tl ih => rw [List.foldl_cons, ih, record_Duration]

theorem foldl_record_Rate (oks : List Bool) (r : ScenarioResult) :
    (oks.foldl record r).Rate = r.Rate := by
  induction oks generalizing r with
  | nil => simp
  | cons ok tl ih => rw [List.foldl_cons, ih, record_Rate]

/-- With a burst size other than zero the burst loop runs all its `rem`
iterations, whatever the cancellation signal says: its trace is the reference
schedule, block after block, and every sink outcome is recorded. -/
theorem burstLoop_spec (env : Env) (count interval b pd : Int) (hb : b ≠ 0) :
    ∀ (rem i : Nat) (w : World) (result : ScenarioResult),
      w.draws = i → w.reads = i + 1 → w.calls = i →
      ∃ w2 : World,
        burstLoop env count interval b pd rem i w result
          = .completed w2
              (((List.range rem).map
                (fun j => env.sink (i + j) (burstAlertAt env b (i + j)))).foldl record result) ∧
        w2.reads = i + rem + 1 ∧
        w2.trace = w.trace ++
          (List.range rem).flatMap (fun j => burstBlock env count interval b pd (i + j)) := by
  intro rem
  induction rem with
  | zero =>
    intro i w result _ hr _
    exact ⟨w, by simp [burstLoop], by simpa using hr, by simp⟩
  | succ rem ih =>
    intro i w result hd hr hc
    have hbound : burstBoundary i b = .ok (decide ((i : Int) > 0 ∧ Int.tmod i b = 0)) := by
      by_cases h0 : (i : Int) > 0
      · simp [burstBoundary, h0, goMod, hb, bind, Except.bind, pure, Except.pure]
      · simp [burstBoundary, h0, pure, Except.pure]
    have hdelay : burstDelay i b count
        = .ok (decide (Int.tmod i b ≠ b - 1 ∧ (i : Int) < count - 1)) := by
      simp [burstDelay, goMod, hb, bind, Except.bind, pure, Except.pure]
    let w1 : World :=
      { calls := i + 1, checks := w.checks, draws := i + 1, reads := i + 1 + 1,
        trace := w.trace ++ burstBlock env count interval b pd i }
    have hstep : burstLoop env count interval b pd (rem + 1) i w result
        = burstLoop env count interval b pd rem (i + 1) w1
            (record result (env.sink i (burstAlertAt env b i))) := by
      rw [burstLoop, hbound]
      simp only []
      generalize hwp : (if decide ((i : Int) > 0 ∧ Int.tmod i b = 0) = true then
          emit (emit w (Event.print ("Pausing for " ++ fmtInt pd ++ " ms after burst\n")))
            (Event.pause pd)
        else w) = wp
      have hfacts : wp.draws = i ∧ wp.reads = i + 1 ∧ wp.calls = i ∧ wp.checks = w.checks ∧
          wp.trace = w.trace ++ (if (i : Int) > 0 ∧ Int.tmod i b = 0 then
            [Event.print ("Pausing for " ++ fmtInt pd ++ " ms after burst\n"), Event.pause pd]
            else []) := by
        subst hwp
        by_cases h1 : (i : Int) > 0 ∧ Int.tmod i b = 0
        · simp only [h1, and_self, decide_True, if_true, emit, hd, hr, hc, List.append_assoc,
            List.singleton_append, true_and]
        · rw [if_neg (by simpa using h1), if_neg h1]
          exact ⟨hd, hr, hc, rfl, by simp⟩
      obtain ⟨e1, e2, e3, e4, e5⟩ := hfacts
      simp only [randIntn, timeNow, e1, e2, burstAlert_ok env b hb, sendAlert, e3, hdelay]
      congr 1
      cases wp
      simp only at e1 e2 e3 e4 e5
      by_cases h2 : Int.tmod i b ≠ b - 1 ∧ (i : Int) < count - 1
      · simp [h2, emit, w1, burstBlock, e1, e2, e3, e4, e5]
      · simp [h2, emit, w1, burstBlock, e1, e2, e3, e4, e5]
    obtain ⟨w2, hrun, hreads, htrace⟩ :=
      ih (i + 1) w1 (record result (env.sink i (burstAlertAt env b i))) rfl rfl rfl
    have hshift : ∀ j : Nat, i + 1 + j = i + (j + 1) := by intro j; omega
    refine ⟨w2, ?_, by omega, ?_⟩
    · rw [hstep, hrun, List.range_succ_eq_map, List.map_cons, List.map_map, List.foldl_cons]
      simp only [Function.comp_def, Nat.succ_eq_add_one, Nat.add_zero, hshift]
    · rw [htrace, List.range_succ_eq_map, List.flatMap_cons, List.flatMap_map]
      simp only [w1, Nat.succ_eq_add_one, Nat.add_zero, hshift, List.append_assoc]

theorem sendOutcomes_burstBlock (env : Env) (count interval b pd : Int) (i : Nat) :
    sendOutcomes (burstBlock env count interval b pd i)
      = [env.sink i (burstAlertAt env b i)] := by
  unfold burstBlock
  split <;> split <;> simp [sendOutcomes]

theorem sendOutcomes_flatMap_burstBlock (env : Env) (count interval b pd : Int)
    (l : List Nat) :
    sendOutcomes (l.flatMap (burstBlock env count interval b pd))
      = l.map (fun i => env.sink i (burstAlertAt env b i)) := by
  induction l with
  | nil => rfl
  | cons i tl ih =>
    rw [List.flatMap_cons, sendOutcomes_append, ih, sendOutcomes_burstBlock]
    rfl

/-- A burst run with a burst size other than zero and a count `n >= 0`: it
follows the reference schedule for the indices `0, ..., n - 1`, never looks at
the cancellation signal, and returns a nil error with every sink outcome
counted. -/
theorem burst_run (env : Env) (opts : ScenarioOptions) (n : Nat) (hn : opts.Count = n)
    (hb : burstSizeOf opts.Params ≠ 0) :
    (generateBurstScenario env opts).trace
      = (List.range n).flatMap
          (burstBlock env n opts.Interval (burstSizeOf opts.Params)
            (pauseDurationOf opts.Params)) ∧
    sendOutcomes (generateBurstScenario env opts).trace
      = (List.range n).map (fun i => env.sink i (burstAlertAt env (burstSizeOf opts.Params) i)) ∧
    ∃ res, (generateBurstScenario env opts).outcome = .returned res none ∧
      res.Sent = (sendOutcomes (generateBurstScenario env opts).trace).count true ∧
      res.Failed = (sendOutcomes (generateBurstScenario env opts).trace).count false ∧
      res.Sent + res.Failed = n ∧
      res.Duration = env.now (n + 1) - env.now 0 ∧
      (n = 0 → res.Rate = 0) := by
  obtain ⟨w2, hrun, hreads, htrace⟩ :=
    burstLoop_spec env n opts.Interval (burstSizeOf opts.Params) (pauseDurationOf opts.Params)
      hb n 0 (timeNow env {}).2 {} rfl rfl rfl
  simp only [Nat.zero_add] at hrun hreads htrace
  have hgen : generateBurstScenario env opts = finish env w2 (timeNow env {}).1
      (((List.range n).map
        (fun j => env.sink j (burstAlertAt env (burstSizeOf opts.Params) j))).foldl record {}) := by
    simp only [generateBurstScenario, hn, Int.toNat_ofNat, hrun]
  have htr : (generateBurstScenario env opts).trace
      = (List.range n).flatMap
          (burstBlock env n opts.Interval (burstSizeOf opts.Params)
            (pauseDurationOf opts.Params)) := by
    rw [hgen, finish_trace, htrace]
    simp [timeNow]
  have hso := sendOutcomes_flatMap_burstBlock env n opts.Interval (burstSizeOf opts.Params)
    (pauseDurationOf opts.Params) (List.range n)
  obtain ⟨res, hres, hs, hf, hd, hrate⟩ := finish_outcome env w2 (timeNow env {}).1
    (((List.range n).map
      (fun j => env.sink j (burstAlertAt env (burstSizeOf opts.Params) j))).foldl record {})
  rw [foldl_record_Sent] at hs
  rw [foldl_record_Failed] at hf
  refine ⟨htr, by rw [htr, hso], res, by rw [hgen, hres], ?_, ?_, ?_, ?_, ?_⟩
  · rw [htr, hso, hs]; simp
  · rw [htr, hso, hf]; simp
  · rw [hs, hf]
    have := count_true_add_count_false
      ((List.range n).map (fun j => env.sink j (burstAlertAt env (burstSizeOf opts.Params) j)))
    simp only [List.length_map, List.length_range] at this
    simp only [zero_add]
    exact_mod_cast this
  · rw [hd, hreads]; simp [timeNow]
  · intro h0
    subst h0
    apply hrate
    · simp
    · simp

/-- A burst run with burst size zero and at least one alert to send panics
while it builds the first alert, before any sink call. -/
theorem burst_zero_size (env : Env) (opts : ScenarioOptions) (hcount : 1 ≤ opts.Count)
    (hb : burstSizeOf opts.Params = 0) :
    generateBurstScenario env opts
      = { trace := [], outcome := .panicked "runtime error: integer divide by zero" } := by
  obtain ⟨r, hr⟩ : ∃ r : Nat, opts.Count.toNat = r + 1 := ⟨opts.Count.toNat - 1, by omega⟩
  have hlt : env.rand 0 % severities.length < severities.length :=
    Nat.mod_lt _ (by rw [severities_length]; omega)
  have hbound : burstBoundary ((0 : Nat) : Int) 0 = .ok false := rfl
  have halert : ∀ ts, burstAlert ((0 : Nat) : Int) 0 (env.rand 0 % severities.length) ts
      = .error "runtime error: integer divide by zero" := by
    intro ts
    simp only [burstAlert, goIndex_getD severities _ "" hlt, goMod, if_true, bind, Except.bind]
  have hloop : burstLoop env opts.Count opts.Interval 0 (pauseDurationOf opts.Params) (r + 1) 0
      (timeNow env {}).2 {}
      = .panicked { reads := 2, draws := 1 } "runtime error: integer divide by zero" := by
    rw [burstLoop, hbound]
    simp only [Bool.false_eq_true, if_false, randIntn, timeNow, halert]
  simp only [generateBurstScenario, hb, hr, hloop]

/-- C2 (the code departs from the claim). Burst size zero: with
`burst_size = "0"` and one alert to send, the burst scenario does not run to
completion; it panics on a division by zero before the first sink call. -/
theorem burst_zero_size_panics :
    burstSizeOf (burstSizeParams "0") = 0 ∧
    generateBurstScenario (sampleEnv reliableSink neverDone) (paramOpts 1 (burstSizeParams "0"))
      = { trace := [], outcome := .panicked "runtime error: integer divide by zero" } :=
  ⟨by decide, burst_zero_size _ _ (by decide) (by decide)⟩

theorem burstLoop_done_irrelevant (env : Env) (d : Nat → Bool) (count interval b pd : Int) :
    ∀ (rem i : Nat) (w : World) (result : ScenarioResult),
      burstLoop { env with done := d } count interval b pd rem i w result
        = burstLoop env count interval b pd rem i w result := by
  intro rem
  induction rem with
  | zero => intro i w result; rfl
  | succ rem ih =>
    intro i w result
    rw [burstLoop, burstLoop]
    simp only [randIntn, timeNow, sendAlert, ih]

/-- The burst scenario never consults the cancellation signal: changing the
signal changes nothing in the run. -/
theorem burst_done_irrelevant (env : Env) (d : Nat → Bool) (opts : ScenarioOptions) :
    generateBurstScenario { env with done := d } opts = generateBurstScenario env opts := by
  simp only [generateBurstScenario, burstLoop_done_irrelevant, timeNow, finish]

/-- C8 (the code departs from the claim). Burst cancellation: with three
alerts to send and a context that is cancelled before alert 1, the burst
scenario still calls the sink three times and returns a nil error with
`Sent + Failed = 3`. -/
theorem burst_ignores_cancellation :
    (sampleEnv reliableSink (doneFrom 1)).done 1 = true ∧
    (sendOutcomes (generateBurstScenario (sampleEnv reliableSink (doneFrom 1))
      (sampleOpts 3)).trace).length = 3 ∧
    ∃ res, (generateBurstScenario (sampleEnv reliableSink (doneFrom 1)) (sampleOpts 3)).outcome
        = .returned res none ∧ res.Sent + res.Failed = 3 := by
  obtain ⟨-, hso, res, hout, -, -, hsum, -, -⟩ :=
    burst_run (sampleEnv reliableSink (doneFrom 1)) (sampleOpts 3) 3 rfl (by decide)
  refine ⟨by decide, ?_, res, hout, hsum⟩
  rw [hso]
  rfl

theorem tmod_natCast (a b : Nat) : Int.tmod (a : Int) (b : Int) = ((a % b : Nat) : Int) := rfl

/-- For a burst size `b >= 1` the two conditions of the reference schedule are
conditions on natural numbers. -/
theorem burstBlock_nat (env : Env) (n b : Nat) (hb : 1 ≤ b) (interval pd : Int) (i : Nat) :
    burstBlock env n interval b pd i
      = (if 0 < i ∧ i % b = 0 then
          [Event.print ("Pausing for " ++ fmtInt pd ++ " ms after burst\n"), Event.pause pd]
         else []) ++
        [Event.send (burstAlertAt env b i) (env.sink i (burstAlertAt env b i))] ++
        (if i % b ≠ b - 1 ∧ i + 1 < n then [Event.sleep interval] else []) := by
  have h1 : ((i : Int) > 0 ∧ Int.tmod i b = 0) ↔ (0 < i ∧ i % b = 0) := by
    rw [tmod_natCast]
    constructor
    · rintro ⟨h, h2⟩
      exact ⟨by omega, by exact_mod_cast h2⟩
    · rintro ⟨h, h2⟩
      exact ⟨by omega, by exact_mod_cast h2⟩
  have h2 : (Int.tmod i b ≠ (b : Int) - 1 ∧ (i : Int) < (n : Int) - 1)
      ↔ (i % b ≠ b - 1 ∧ i + 1 < n) := by
    rw [tmod_natCast]
    constructor
    · rintro ⟨h, h2⟩
      exact ⟨fun hc => h (by rw [hc]; omega), by omega⟩
    · rintro ⟨h, h2⟩
      exact ⟨fun hc => h (by omega), by omega⟩
  unfold burstBlock
  simp only [h1, h2]

theorem pauseCount_append (a b : List Event) :
    pauseCount (a ++ b) = pauseCount a + pauseCount b := by
  simp [pauseCount, List.countP_append]

theorem pauseCount_burstBlock (env : Env) (n b : Nat) (hb : 1 ≤ b) (interval pd : Int)
    (i : Nat) :
    pauseCount (burstBlock env n interval b pd i) = if 0 < i ∧ i % b = 0 then 1 else 0 := by
  rw [burstBlock_nat env n b hb]
  split <;> split <;> simp [pauseCount, List.countP_cons]

theorem boundary_count (b m : Nat) :
    (m + 1 - 1) / b = (m - 1) / b + if 0 < m ∧ m % b = 0 then 1 else 0 := by
  cases m with
  | zero => simp
  | succ k =>
    have hdvd : b ∣ k + 1 ↔ (k + 1) % b = 0 := Nat.dvd_iff_mod_eq_zero
    simp only [Nat.add_sub_cancel, Nat.succ_div, hdvd, Nat.zero_lt_succ, true_and]

theorem pauseCount_flatMap_burstBlock (env : Env) (n b : Nat) (hb : 1 ≤ b) (interval pd : Int)
    (m : Nat) :
    pauseCount ((List.range m).flatMap (burstBlock env n interval b pd)) = (m - 1) / b := by
  induction m with
  | zero => simp [pauseCount]
  | succ m ih =>
    rw [List.range_succ, List.flatMap_append, pauseCount_append, ih, List.flatMap_singleton,
      pauseCount_burstBlock env n b hb, boundary_count b m]

theorem pausedBefore_burstBlock (env : Env) (n b : Nat) (hb : 1 ≤ b) (interval pd : Int)
    (i : Nat) (rest : List Event) :
    pausedBefore (burstBlock env n interval b pd i ++ rest)
      = (if 0 < i ∧ i % b = 0 then ["burst-" ++ fmtInt (i : Int)] else []) ++
          pausedBefore rest := by
  rw [burstBlock_nat env n b hb]
  split <;> split <;> simp [pausedBefore, burstAlertAt]

theorem pausedBefore_flatMap_burstBlock (env : Env) (n b : Nat) (hb : 1 ≤ b)
    (interval pd : Int) (l : List Nat) :
    pausedBefore (l.flatMap (burstBlock env n interval b pd))
      = (l.filter (fun i => decide (0 < i ∧ i % b = 0))).map
          (fun i => "burst-" ++ fmtInt (i : Int)) := by
  induction l with
  | nil => rfl
  | cons i tl ih =>
    rw [List.flatMap_cons, pausedBefore_burstBlock env n b hb, ih]
    by_cases h : 0 < i ∧ i % b = 0
    · rw [if_pos h, List.filter_cons_of_pos (by simpa using h)]
      rfl
    · rw [if_neg h, List.filter_cons_of_neg (by simpa using h)]
      rfl

/-- C9. Burst pause points: with an effective burst size `b >= 1` and `n`
alerts to send, the run is the sequence, for `i = 0, ..., n - 1`, of the pause
(taken exactly when `0 < i` and `i mod b = 0`), the sink call of alert `i`, and
the interval delay; so the alerts sent right after a pause are those of the
indices `i` with `0 < i < n` and `i mod b = 0`, never index 0, and the run
pauses `(n - 1) / b` times (0 times for `n = 0`). -/
theorem burst_pause_points (env : Env) (opts : ScenarioOptions) (b n : Nat) (hb : 1 ≤ b)
    (hsize : burstSizeOf opts.Params = b) (hn : opts.Count = n) :
    (generateBurstScenario env opts).trace
      = (List.range n).flatMap (fun i =>
          (if 0 < i ∧ i % b = 0 then
            [Event.print ("Pausing for " ++ fmtInt (pauseDurationOf opts.Params)
                ++ " ms after burst\n"),
             Event.pause (pauseDurationOf opts.Params)]
           else []) ++
          [Event.send (burstAlertAt env b i) (env.sink i (burstAlertAt env b i))] ++
          (if i % b ≠ b - 1 ∧ i + 1 < n then [Event.sleep opts.Interval] else [])) ∧
    pausedBefore (generateBurstScenario env opts).trace
      = ((List.range n).filter (fun i => decide (0 < i ∧ i % b = 0))).map
          (fun i => "burst-" ++ fmtInt (i : Int)) ∧
    pauseCount (generateBurstScenario env opts).trace = (n - 1) / b := by
  have hne : burstSizeOf opts.Params ≠ 0 := by rw [hsize]; omega
  obtain ⟨htr, -, -⟩ := burst_run env opts n hn hne
  rw [hsize] at htr
  refine ⟨?_, ?_, ?_⟩
  · rw [htr]
    congr 1
    funext i
    exact burstBlock_nat env n b hb opts.Interval (pauseDurationOf opts.Params) i
  · rw [htr, pausedBefore_flatMap_burstBlock env n b hb]
  · rw [htr, pauseCount_flatMap_burstBlock env n b hb]

theorem burst_pause_points_witness :
    1 ≤ 3 ∧ burstSizeOf (paramOpts 7 (burstParams "3" "0")).Params = (3 : Nat) ∧
    (paramOpts 7 (burstParams "3" "0")).Count = (7 : Nat) ∧
    pauseDurationOf (paramOpts 7 (burstParams "3" "0")).Params = 0 ∧
    pausedBefore (generateBurstScenario (sampleEnv reliableSink neverDone)
        (paramOpts 7 (burstParams "3" "0"))).trace = ["burst-3", "burst-6"] ∧
    pauseCount (generateBurstScenario (sampleEnv reliableSink neverDone)
        (paramOpts 7 (burstParams "3" "0"))).trace = 2 := by
  obtain ⟨-, hbefore, hcount⟩ :=
    burst_pause_points (sampleEnv reliableSink neverDone) (paramOpts 7 (burstParams "3" "0"))
      3 7 (by decide) (by decide) (by decide)
  refine ⟨by decide, by decide, by decide, by decide, ?_, ?_⟩
  · rw [hbefore]
    decide
  · rw [hcount]

/-! ## Theorems: the burst parameters -/

theorem isSpace_of_digit {c : Char} (h : isDecimalDigit c = true) : isSpace c = false := by
  have h0 : '0'.toNat = 48 := rfl
  have h9 : '9'.toNat = 57 := rfl
  simp only [isDecimalDigit, h0, h9, decide_eq_true_eq] at h
  simp only [isSpace, decide_eq_false_iff_not]
  omega

theorem skipSpace_of_not_space (c : Char) (cs : List Char) (h : isSpace c = false) :
    skipSpace (c :: cs) = .ok (c :: cs) := by
  have h1 : c ≠ '\r' := by rintro rfl; exact absurd h (by decide)
  have h2 : c ≠ '\n' := by rintro rfl; exact absurd h (by decide)
  simp [skipSpace, h1, h2, h]

theorem skipSpace_blanks (blanks s : List Char)
    (hblanks : ∀ c ∈ blanks, isSpace c = true ∧ c ≠ '\n') :
    skipSpace (blanks ++ s) = skipSpace s := by
  induction blanks with
  | nil => rfl
  | cons c cs ih =>
    have hc := hblanks c (List.mem_cons_self c cs)
    have ih2 := ih (fun d hd => hblanks d (List.mem_cons_of_mem c hd))
    rw [List.cons_append, skipSpace]
    by_cases h1 : c = '\r' ∧ (cs ++ s).head? = some '\n'
    · rw [if_pos h1, ih2]
    · rw [if_neg h1, if_neg hc.2, if_pos hc.1, ih2]

theorem skipSpace_newline (blanks rest : List Char) (hblanks : ∀ c ∈ blanks, isSpace c = true) :
    skipSpace (blanks ++ '\n' :: rest) = .error "unexpected newline" := by
  induction blanks with
  | nil => simp [skipSpace]
  | cons c cs ih =>
    have hc := hblanks c (List.mem_cons_self c cs)
    have ih2 := ih (fun d hd => hblanks d (List.mem_cons_of_mem c hd))
    rw [List.cons_append, skipSpace]
    by_cases h1 : c = '\r' ∧ (cs ++ '\n' :: rest).head? = some '\n'
    · rw [if_pos h1, ih2]
    · rw [if_neg h1]
      by_cases h2 : c = '\n'
      · rw [if_pos h2]
      · rw [if_neg h2, if_pos hc, ih2]

theorem skipSpace_ok (input s : List Char) (h : skipSpace input = .ok s) :
    s = input.dropWhile isSpace := by
  induction input with
  | nil =>
    simp only [skipSpace, Except.ok.injEq] at h
    rw [← h]
    rfl
  | cons c cs ih =>
    rw [skipSpace] at h
    by_cases h1 : c = '\r' ∧ cs.head? = some '\n'
    · rw [if_pos h1] at h
      have hsp : isSpace c = true := by rw [h1.1]; decide
      rw [List.dropWhile_cons_of_pos hsp]
      exact ih h
    · rw [if_neg h1] at h
      by_cases h2 : c = '\n'
      · rw [if_pos h2] at h
        exact absurd h (by simp)
      · rw [if_neg h2] at h
        by_cases h3 : isSpace c = true
        · rw [if_pos h3] at h
          rw [List.dropWhile_cons_of_pos h3]
          exact ih h
        · rw [if_neg h3] at h
          rw [List.dropWhile_cons_of_neg h3]
          simpa using h.symm

theorem takeWhile_digits (ds rest : List Char) (hds : ds.all isDecimalDigit = true)
    (hrest : ∀ c, rest.head? = some c → isDecimalDigit c = false) :
    (ds ++ rest).takeWhile isDecimalDigit = ds := by
  induction ds with
  | nil =>
    cases rest with
    | nil => rfl
    | cons c cs =>
      have := hrest c rfl
      simp [List.takeWhile_cons, this]
  | cons d ds ih =>
    simp only [List.all_cons, Bool.and_eq_true] at hds
    rw [List.cons_append, List.takeWhile_cons, hds.1]
    simp only [if_true, List.cons.injEq, true_and]
    exact ih hds.2

theorem digit_ne_sign {c : Char} (h : isDecimalDigit c = true) : c ≠ '+' ∧ c ≠ '-' := by
  constructor <;> rintro rfl <;> exact absurd h (by decide)

/-- What the `%d` scan returns once the leading blanks are gone: the text is a
sign (or none), a non-empty run of digits, and a rest that does not start with
a digit. -/
theorem scanInt_of_skip (input sgn ds rest : List Char)
    (hsgn : sgn = [] ∨ sgn = ['+'] ∨ sgn = ['-'])
    (hskip : skipSpace input = .ok (sgn ++ ds ++ rest))
    (hne : ds ≠ []) (hds : ds.all isDecimalDigit = true)
    (hrest : ∀ c, rest.head? = some c → isDecimalDigit c = false) :
    scanInt input
      = if fitsInt64 (if sgn = ['-'] then -(digitsValue ds : Int) else (digitsValue ds : Int))
        then .ok (if sgn = ['-'] then -(digitsValue ds : Int) else (digitsValue ds : Int))
        else .error "value out of range" := by
  have htw := takeWhile_digits ds rest hds hrest
  obtain ⟨d, ds1, rfl⟩ : ∃ d ds1, ds = d :: ds1 := by
    cases ds with
    | nil => exact absurd rfl hne
    | cons d ds1 => exact ⟨d, ds1, rfl⟩
  have hd : isDecimalDigit d = true := by
    simp only [List.all_cons, Bool.and_eq_true] at hds
    exact hds.1
  obtain ⟨hd1, hd2⟩ := digit_ne_sign hd
  have hrange : ∀ z : Int, (z < -9223372036854775808 ∨ z > 9223372036854775807)
      ↔ ¬ (fitsInt64 z = true) := by
    intro z
    simp only [fitsInt64, decide_eq_true_eq]
    omega
  rcases hsgn with rfl | rfl | rfl
  · simp only [List.nil_append, List.cons_append] at hskip htw ⊢
    simp only [scanInt, hskip, List.head?_cons, Option.some.injEq, hd1, hd2, or_self, if_false,
      htw, hrange]
    simp only [reduceCtorEq, if_false, List.cons_ne_nil]
    by_cases hf : fitsInt64 ((digitsValue (d :: ds1) : Nat) : Int) = true <;> simp [hf]
  · simp only [List.nil_append, List.cons_append, List.singleton_append] at hskip htw ⊢
    simp only [scanInt, hskip, List.head?_cons, List.tail_cons, hrange]
    simp only [true_or, if_true, htw, reduceCtorEq, if_false, List.cons_ne_nil, Option.some.injEq]
    by_cases hf : fitsInt64 ((digitsValue (d :: ds1) : Nat) : Int) = true <;> simp [hf]
  · simp only [List.nil_append, List.cons_append, List.singleton_append] at hskip htw ⊢
    simp only [scanInt, hskip, List.head?_cons, List.tail_cons, hrange]
    simp only [or_true, if_true, htw, reduceCtorEq, if_false, List.cons_ne_nil]
    by_cases hf : fitsInt64 (-((digitsValue (d :: ds1) : Nat) : Int)) = true <;> simp [hf]

theorem intLiteral_some (lit : List Char) (z : Int) (h : intLiteral lit = some z) :
    ∃ sgn ds, lit = sgn ++ ds ∧ (sgn = [] ∨ sgn = ['+'] ∨ sgn = ['-']) ∧ ds ≠ [] ∧
      ds.all isDecimalDigit = true ∧
      z = if sgn = ['-'] then -(digitsValue ds : Int) else (digitsValue ds : Int) := by
  unfold intLiteral at h
  split at h
  · split at h
    · rename_i ds hds
      exact ⟨['-'], ds, rfl, Or.inr (Or.inr rfl), hds.1, hds.2, by simpa using h.symm⟩
    · exact absurd h (by simp)
  · split at h
    · rename_i ds hds
      exact ⟨['+'], ds, rfl, Or.inr (Or.inl rfl), hds.1, hds.2, by simpa using h.symm⟩
    · exact absurd h (by simp)
  · split at h
    · rename_i hds
      exact ⟨[], lit, rfl, Or.inl rfl, hds.1, hds.2, by simpa using h.symm⟩
    · exact absurd h (by simp)

/-- The `%d` scan of a text made of blanks (no newline), an integer literal and
a rest that does not start with a digit: the literal is read, the rest is
ignored, and the scan fails only when the integer does not fit in 64 bits. -/
theorem scanInt_literal (blanks lit rest : List Char) (z : Int)
    (hblanks : ∀ c ∈ blanks, isSpace c = true ∧ c ≠ '\n')
    (hlit : intLiteral lit = some z)
    (hrest : ∀ c, rest.head? = some c → isDecimalDigit c = false) :
    scanInt (blanks ++ lit ++ rest)
      = if fitsInt64 z then .ok z else .error "value out of range" := by
  obtain ⟨sgn, ds, rfl, hsgn, hne, hds, rfl⟩ := intLiteral_some lit z hlit
  apply scanInt_of_skip _ sgn ds rest hsgn _ hne hds hrest
  rw [List.append_assoc, skipSpace_blanks _ _ hblanks]
  obtain ⟨d, ds1, rfl⟩ : ∃ d ds1, ds = d :: ds1 := by
    cases ds with
    | nil => exact absurd rfl hne
    | cons d ds1 => exact ⟨d, ds1, rfl⟩
  have hd : isDecimalDigit d = true := by
    simp only [List.all_cons, Bool.and_eq_true] at hds
    exact hds.1
  rcases hsgn with rfl | rfl | rfl
  · exact skipSpace_of_not_space d _ (isSpace_of_digit hd)
  · exact skipSpace_of_not_space '+' _ (by decide)
  · exact skipSpace_of_not_space '-' _ (by decide)

/-- The `%d` scan fails on a text that, after its leading blanks, does not
start with an integer. -/
theorem scanInt_no_int (input : List Char)
    (h : startsWithInt (input.dropWhile isSpace) = false) :
    ∃ e, scanInt input = .error e := by
  unfold scanInt
  cases hs : skipSpace input with
  | error e => exact ⟨e, rfl⟩
  | ok s =>
    rw [← skipSpace_ok input s hs] at h
    cases s with
    | nil => exact ⟨"unexpected EOF", by simp⟩
    | cons c rest =>
      simp only [startsWithInt, Bool.or_eq_false_iff, Bool.and_eq_false_iff] at h
      obtain ⟨hc, hsign⟩ := h
      by_cases hsg : c = '+' ∨ c = '-'
      · have hrd : rest.head?.any isDecimalDigit = false := by
          rcases hsign with h1 | h1
          · rcases hsg with rfl | rfl <;> simp at h1
          · exact h1
        cases rest with
        | nil => exact ⟨"unexpected EOF", by simp [hsg]⟩
        | cons d tl =>
          have hd : isDecimalDigit d = false := by simpa using hrd
          exact ⟨"expected integer", by simp [hsg, List.takeWhile_cons, hd]⟩
      · have h1 : c ≠ '+' := fun hc => hsg (Or.inl hc)
        have h2 : c ≠ '-' := fun hc => hsg (Or.inr hc)
        exact ⟨"expected integer", by simp [h1, h2, List.takeWhile_cons, hc]⟩

/-- How `fmt.Sscanf(v, "%d", &x)` reads a text `v` into a variable holding `x`. -/
theorem sscanfInt_spec (v : String) (x : Int) :
    (startsWithInt (v.toList.dropWhile isSpace) = false → sscanfInt v x = x) ∧
    (∀ blanks rest : List Char, v.toList = blanks ++ '\n' :: rest →
      (∀ c ∈ blanks, isSpace c = true) → sscanfInt v x = x) ∧
    (∀ (blanks lit rest : List Char) (z : Int), v.toList = blanks ++ lit ++ rest →
      (∀ c ∈ blanks, isSpace c = true ∧ c ≠ '\n') → intLiteral lit = some z →
      (∀ c, rest.head? = some c → isDecimalDigit c = false) →
      sscanfInt v x = if fitsInt64 z then z else x) := by
  refine ⟨?_, ?_, ?_⟩
  · intro h
    obtain ⟨e, he⟩ := scanInt_no_int v.toList h
    simp only [sscanfInt, he]
  · intro blanks rest hv hblanks
    have he : scanInt v.toList = .error "unexpected newline" := by
      simp only [scanInt, hv, skipSpace_newline blanks rest hblanks]
    simp only [sscanfInt, he]
  · intro blanks lit rest z hv hblanks hlit hrest
    have hz := scanInt_literal blanks lit rest z hblanks hlit hrest
    rw [← hv] at hz
    by_cases hf : fitsInt64 z = true
    · rw [if_pos hf] at hz
      simp only [sscanfInt, hz, hf, if_true]
    · rw [if_neg hf] at hz
      simp only [sscanfInt, hz, hf]
      rfl

theorem burst_params_counterexample :
    intLiteral "5abc".toList = none ∧ burstSizeOf (burstSizeParams "5abc") = 5 := by
  decide

/-- C10 (amended). Burst parameter defaults: the effective burst size is 10
when the key `burst_size` is absent and otherwise what `fmt.Sscanf` reads with
`%d` from its value into a variable holding 10; likewise the pause duration
with the key `pause_duration` and 2000.  Such a read keeps the old value when the
text, after its leading blanks, does not start with an integer (a digit, or a
sign followed by a digit) or when a newline stands among the leading blanks.
When the text is made of blanks, an integer literal and a rest that does not
start with a digit (an empty rest included: the value as a whole is a literal),
the read gives the integer the literal denotes if it fits in 64 bits, and keeps
the old value if not; the rest is ignored.  No other key of `Params` influences
the run. -/
theorem burst_parameters (env : Env) (opts : ScenarioOptions) :
    burstSizeOf opts.Params
      = (match opts.Params "burst_size" with
         | some v => sscanfInt v 10
         | none => 10) ∧
    pauseDurationOf opts.Params
      = (match opts.Params "pause_duration" with
         | some v => sscanfInt v 2000
         | none => 2000) ∧
    (∀ (v : String) (x : Int),
      (startsWithInt (v.toList.dropWhile isSpace) = false → sscanfInt v x = x) ∧
      (∀ blanks rest : List Char, v.toList = blanks ++ '\n' :: rest →
        (∀ c ∈ blanks, isSpace c = true) → sscanfInt v x = x) ∧
      (∀ (blanks lit rest : List Char) (z : Int), v.toList = blanks ++ lit ++ rest →
        (∀ c ∈ blanks, isSpace c = true ∧ c ≠ '\n') → intLiteral lit = some z →
        (∀ c, rest.head? = some c → isDecimalDigit c = false) →
        sscanfInt v x = if fitsInt64 z then z else x)) ∧
    (∀ params : String → Option String,
      params "burst_size" = opts.Params "burst_size" →
      params "pause_duration" = opts.Params "pause_duration" →
      generateBurstScenario env { opts with Params := params }
        = generateBurstScenario env opts) := by
  refine ⟨rfl, rfl, sscanfInt_spec, ?_⟩
  intro params h1 h2
  simp only [generateBurstScenario, burstSizeOf, pauseDurationOf, h1, h2]

theorem burst_parameters_witness :
    burstSizeOf (paramOpts 7 (burstParams " +12ms" "soon")).Params = 12 ∧
    pauseDurationOf (paramOpts 7 (burstParams " +12ms" "soon")).Params = 2000 ∧
    burstSizeOf (paramOpts 7 (burstParams "-3" "250")).Params = -3 ∧
    generateBurstScenario (sampleEnv reliableSink neverDone)
        { paramOpts 7 (burstParams "3" "0") with
          Params := fun key => if key = "note" then some "x" else burstParams "3" "0" key }
      = generateBurstScenario (sampleEnv reliableSink neverDone)
          (paramOpts 7 (burstParams "3" "0")) := by
  obtain ⟨hsize, hpause, hread, -⟩ :=
    burst_parameters (sampleEnv reliableSink neverDone) (paramOpts 7 (burstParams " +12ms" "soon"))
  obtain ⟨hsize2, -, -, -⟩ :=
    burst_parameters (sampleEnv reliableSink neverDone) (paramOpts 7 (burstParams "-3" "250"))
  obtain ⟨-, -, -, hother⟩ :=
    burst_parameters (sampleEnv reliableSink neverDone) (paramOpts 7 (burstParams "3" "0"))
  refine ⟨?_, ?_, ?_, hother _ (by decide) (by decide)⟩
  · rw [hsize]
    exact (hread " +12ms" 10).2.2 [' '] ['+', '1', '2'] ['m', 's'] 12 (by decide) (by decide)
      (by decide) (by decide)
  · rw [hpause]
    exact (hread "soon" 2000).1 (by decide)
  · rw [hsize2]
    exact (hread "-3" 10).2.2 [] ['-', '3'] [] (-3) (by decide) (by decide) (by decide)
      (by decide)

/-! ## Theorems: the pooled scenarios -/

theorem total_set (f : WorkerPc → Nat) (ws : List WorkerPc) (w : Nat) (old new : WorkerPc)
    (h : ws[w]? = some old) : total f (ws.set w new) + f old = total f ws + f new := by
  induction ws generalizing w with
  | nil => simp at h
  | cons x xs ih =>
    cases w with
    | zero =>
      simp only [List.getElem?_cons_zero, Option.some.injEq] at h
      subst h
      simp only [total, List.set_cons_zero, List.map_cons, List.sum_cons]
      omega
    | succ j =>
      simp only [List.getElem?_cons_succ] at h
      have := ih j h
      simp only [total, List.set_cons_succ, List.map_cons, List.sum_cons] at this ⊢
      omega

theorem total_eq_zero (f : WorkerPc → Nat) (ws : List WorkerPc) (h : ∀ pc ∈ ws, f pc = 0) :
    total f ws = 0 := by
  induction ws with
  | nil => rfl
  | cons x xs ih =>
    have hx := h x (List.mem_cons_self x xs)
    have := ih (fun pc hpc => h pc (List.mem_cons_of_mem x hpc))
    simp only [total, List.map_cons, List.sum_cons] at this ⊢
    omega

theorem le_total (f : WorkerPc → Nat) (ws : List WorkerPc) (w : Nat) (pc : WorkerPc)
    (h : ws[w]? = some pc) : f pc ≤ total f ws := by
  have := total_set f ws w pc pc h
  induction ws generalizing w with
  | nil => simp at h
  | cons x xs ih =>
    cases w with
    | zero =>
      simp only [List.getElem?_cons_zero, Option.some.injEq] at h
      subst h
      simp only [total, List.map_cons, List.sum_cons]
      omega
    | succ j =>
      simp only [List.getElem?_cons_succ] at h
      have := ih j h (total_set f xs j pc pc h)
      simp only [total, List.map_cons, List.sum_cons] at this ⊢
      omega

theorem workersDone_append (a b : List Event) :
    workersDone (a ++ b) = workersDone a ++ workersDone b := by
  simp [workersDone, List.filterMap_append]

theorem getElem?_set_exited (ws : List WorkerPc) (w v : Nat) (pc : WorkerPc)
    (hpc : pc ≠ .exited) (h : (ws.set w pc)[v]? = some .exited) : ws[v]? = some .exited := by
  rw [List.getElem?_set] at h
  by_cases hwv : w = v
  · rw [if_pos hwv] at h
    by_cases hlt : w < ws.length
    · rw [if_pos hlt] at h
      exact absurd (Option.some.inj h) hpc
    · rw [if_neg hlt] at h
      exact absurd h (by simp)
  · rw [if_neg hwv] at h
    exact h

theorem mem_set_exited (ws : List WorkerPc) (w : Nat) (pc : WorkerPc) (hpc : pc ≠ .exited)
    (h : WorkerPc.exited ∈ ws.set w pc) : WorkerPc.exited ∈ ws := by
  rcases List.mem_or_eq_of_mem_set h with h1 | h1
  · exact h1
  · exact absurd h1.symm hpc

/-- The calling goroutine takes a result from the channel and counts it. -/
theorem inv_collect (cfg : PoolCfg) (s : Pool) (ok : Bool) (rest : List Bool)
    (hinv : PoolInv cfg s) (hlt : s.collected < cfg.count) (hres : s.results = ok :: rest) :
    PoolInv cfg { s with results := rest, collected := s.collected + 1,
                         result := record s.result ok } ∧
    potential cfg { s with results := rest, collected := s.collected + 1,
                           result := record s.result ok } < potential cfg s := by
  obtain ⟨h1, h2, h3, h4, h5, h6, h7, h8, h9, h10⟩ := hinv
  have hlen : s.results.length = rest.length + 1 := by rw [hres]; rfl
  refine ⟨⟨h1, ?_, h3, h4, ?_, ?_, ?_, ?_, h9, h10⟩, ?_⟩
  · simp only; omega
  · simp only [record_Sent, record_Failed]
    cases ok <;> simp <;> omega
  · simp only [record_Sent, record_Failed]
    cases ok <;> simp <;> omega
  · simp only [record_Rate]; exact h7
  · simp only; omega
  · simp only [potential]; omega

/-- The producer queues job `i`. -/
theorem inv_push (cfg : PoolCfg) (s : Pool) (i : Nat) (hinv : PoolInv cfg s)
    (hp : s.producer = .loop i) (hlt : i < cfg.count) :
    PoolInv cfg { s with jobs := s.jobs ++ [i],
                         producer := if cfg.interval > 0 then .pause i else .loop (i + 1) } ∧
    potential cfg { s with jobs := s.jobs ++ [i],
                           producer := if cfg.interval > 0 then .pause i else .loop (i + 1) }
      < potential cfg s := by
  obtain ⟨h1, h2, h3, h4, h5, h6, h7, h8, h9, h10⟩ := hinv
  rw [hp] at h1 h2 h3
  simp only [pushed] at h1 h2
  have hclosed : s.jobsClosed = false := by
    cases hc : s.jobsClosed
    · rfl
    · exact absurd (h3.mp hc) (by simp)
  have hnoexit : WorkerPc.exited ∉ s.workers := by
    intro hmem
    rw [(h4 hmem).2] at hclosed
    exact absurd hclosed (by simp)
  by_cases hiv : cfg.interval > 0
  · simp only [hiv, if_true]
    refine ⟨⟨?_, ?_, ?_, ?_, h5, h6, h7, h8, h9, h10⟩, ?_⟩
    · simp only [pushed]; omega
    · simp only [pushed, List.length_append, List.length_singleton]; omega
    · simp only [hclosed]; simp
    · intro hmem; exact absurd hmem hnoexit
    · simp only [potential, hp, producerPot, toPush, List.length_append, List.length_singleton]
      omega
  · simp only [hiv, if_false]
    refine ⟨⟨?_, ?_, ?_, ?_, h5, h6, h7, h8, h9, h10⟩, ?_⟩
    · simp only [pushed]; omega
    · simp only [pushed, List.length_append, List.length_singleton]; omega
    · simp only [hclosed]; simp
    · intro hmem; exact absurd hmem hnoexit
    · simp only [potential, hp, producerPot, toPush, List.length_append, List.length_singleton]
      omega

/-- The producer closes the job channel and leaves. -/
theorem inv_close (cfg : PoolCfg) (s : Pool) (i : Nat) (hinv : PoolInv cfg s)
    (hp : s.producer = .loop i) (hge : ¬ i < cfg.count) :
    PoolInv cfg { s with jobsClosed := true, producer := .exited } ∧
    potential cfg { s with jobsClosed := true, producer := .exited } < potential cfg s := by
  obtain ⟨h1, h2, h3, h4, h5, h6, h7, h8, h9, h10⟩ := hinv
  rw [hp] at h1 h2
  simp only [pushed] at h1 h2
  refine ⟨⟨?_, ?_, ?_, ?_, h5, h6, h7, h8, h9, h10⟩, ?_⟩
  · simp only [pushed]; omega
  · simp only [pushed]; omega
  · simp
  · intro hmem; exact ⟨(h4 hmem).1, rfl⟩
  · simp only [potential, hp, producerPot, toPush]
    omega

/-- The producer sleeps between two jobs. -/
theorem inv_pause (cfg : PoolCfg) (s : Pool) (i : Nat) (hinv : PoolInv cfg s)
    (hp : s.producer = .pause i) :
    PoolInv cfg { s with world := emit s.world (.sleep cfg.interval),
                         producer := .loop (i + 1) } ∧
    potential cfg { s with world := emit s.world (.sleep cfg.interval),
                           producer := .loop (i + 1) } < potential cfg s := by
  obtain ⟨h1, h2, h3, h4, h5, h6, h7, h8, h9, h10⟩ := hinv
  rw [hp] at h1 h2 h3
  simp only [pushed] at h1 h2
  refine ⟨⟨?_, ?_, ?_, h4, h5, h6, h7, h8, ?_, ?_⟩, ?_⟩
  · simp only [pushed]; omega
  · simp only [pushed]; omega
  · constructor
    · intro hc; exact absurd (h3.mp hc) (by simp)
    · intro hc; exact absurd hc (by simp)
  · simp only [emit, sendOutcomes_append]
    simpa [sendOutcomes] using h9
  · intro w hw
    simp only [emit, workersDone_append]
    exact List.mem_append_left _ (h10 w hw)
  · simp only [potential, hp, producerPot, toPush]
    omega

/-- A worker takes job `i` from the channel. -/
theorem inv_recv_job (cfg : PoolCfg) (s : Pool) (w i : Nat) (rest : List Nat)
    (hinv : PoolInv cfg s) (hw : s.workers[w]? = some .recv) (hjobs : s.jobs = i :: rest) :
    PoolInv cfg { s with jobs := rest, workers := s.workers.set w (.work i) } ∧
    potential cfg { s with jobs := rest, workers := s.workers.set w (.work i) }
      < potential cfg s := by
  obtain ⟨h1, h2, h3, h4, h5, h6, h7, h8, h9, h10⟩ := hinv
  have hW := total_set isWork s.workers w .recv (.work i) hw
  have hR := total_set isReport s.workers w .recv (.work i) hw
  have hP := total_set workerPot s.workers w .recv (.work i) hw
  simp only [isWork, isReport, workerPot] at hW hR hP
  have hlen : s.jobs.length = rest.length + 1 := by rw [hjobs]; rfl
  have hnoexit : WorkerPc.exited ∉ s.workers := by
    intro hmem
    rw [(h4 hmem).1] at hjobs
    exact absurd hjobs (by simp)
  refine ⟨⟨h1, ?_, h3, ?_, h5, h6, h7, ?_, h9, ?_⟩, ?_⟩
  · simp only; omega
  · intro hmem
    exact absurd (mem_set_exited _ _ _ (by simp) hmem) hnoexit
  · simp only; omega
  · intro v hv
    exact h10 v (getElem?_set_exited _ _ _ _ (by simp) hv)
  · simp only [potential]; omega

/-- A worker finds the job channel empty and closed, and leaves. -/
theorem inv_recv_exit (cfg : PoolCfg) (s : Pool) (w : Nat)
    (hinv : PoolInv cfg s) (hw : s.workers[w]? = some .recv) (hjobs : s.jobs = [])
    (hclosed : s.jobsClosed = true) :
    PoolInv cfg { s with workers := s.workers.set w .exited,
                         world := emit s.world (.workerDone w) } ∧
    potential cfg { s with workers := s.workers.set w .exited,
                           world := emit s.world (.workerDone w) } < potential cfg s := by
  obtain ⟨h1, h2, h3, h4, h5, h6, h7, h8, h9, h10⟩ := hinv
  have hW := total_set isWork s.workers w .recv .exited hw
  have hR := total_set isReport s.workers w .recv .exited hw
  have hP := total_set workerPot s.workers w .recv .exited hw
  simp only [isWork, isReport, workerPot] at hW hR hP
  refine ⟨⟨h1, ?_, h3, ?_, h5, h6, h7, ?_, ?_, ?_⟩, ?_⟩
  · simp only; omega
  · intro _; exact ⟨hjobs, hclosed⟩
  · simp only [emit]; omega
  · simp only [emit, sendOutcomes_append]
    simpa [sendOutcomes] using h9
  · intro v hv
    simp only [emit, workersDone_append]
    by_cases hwv : w = v
    · subst hwv
      exact List.mem_append_right _ (by simp [workersDone])
    · rw [List.getElem?_set_ne hwv] at hv
      exact List.mem_append_left _ (h10 v hv)
  · simp only [potential]; omega

/-- A worker builds the alert of its job and calls the sink. -/
theorem inv_work (env : Env) (cfg : PoolCfg) (s : Pool) (w i : Nat) (a : Alert) (w2 : World)
    (hinv : PoolInv cfg s) (hw : s.workers[w]? = some (.work i))
    (hcalls : w2.calls = s.world.calls) (htrace : w2.trace = s.world.trace) :
    PoolInv cfg { s with world := (sendAlert env w2 a).2,
                         workers := s.workers.set w (.report (sendAlert env w2 a).1) } ∧
    potential cfg { s with world := (sendAlert env w2 a).2,
                           workers := s.workers.set w (.report (sendAlert env w2 a).1) }
      < potential cfg s := by
  obtain ⟨h1, h2, h3, h4, h5, h6, h7, h8, h9, h10⟩ := hinv
  have hW := total_set isWork s.workers w (.work i) (.report (sendAlert env w2 a).1) hw
  have hR := total_set isReport s.workers w (.work i) (.report (sendAlert env w2 a).1) hw
  have hP := total_set workerPot s.workers w (.work i) (.report (sendAlert env w2 a).1) hw
  simp only [isWork, isReport, workerPot] at hW hR hP
  refine ⟨⟨h1, ?_, h3, ?_, h5, h6, h7, ?_, ?_, ?_⟩, ?_⟩
  · simp only; omega
  · intro hmem
    exact h4 (mem_set_exited _ _ _ (by simp) hmem)
  · have hs1 : (sendAlert env w2 a).2.calls = w2.calls + 1 := rfl
    simp only [hs1, hcalls]; omega
  · have hs1 : (sendAlert env w2 a).2.calls = w2.calls + 1 := rfl
    have hs2 : (sendAlert env w2 a).2.trace
        = w2.trace ++ [Event.send a (sendAlert env w2 a).1] := rfl
    simp only [hs1, hs2, htrace, hcalls, sendOutcomes_append, List.length_append]
    rw [h9]
    rfl
  · intro v hv
    have hs2 : (sendAlert env w2 a).2.trace
        = w2.trace ++ [Event.send a (sendAlert env w2 a).1] := rfl
    simp only [hs2, htrace, workersDone_append]
    exact List.mem_append_left _ (h10 v (getElem?_set_exited _ _ _ _ (by simp) hv))
  · simp only [potential]; omega

/-- A worker puts the outcome of its sink call on the result channel. -/
theorem inv_report (cfg : PoolCfg) (s : Pool) (w : Nat) (ok : Bool)
    (hinv : PoolInv cfg s) (hw : s.workers[w]? = some (.report ok)) :
    PoolInv cfg { s with results := s.results ++ [ok], workers := s.workers.set w .recv } ∧
    potential cfg { s with results := s.results ++ [ok], workers := s.workers.set w .recv }
      < potential cfg s := by
  obtain ⟨h1, h2, h3, h4, h5, h6, h7, h8, h9, h10⟩ := hinv
  have hW := total_set isWork s.workers w (.report ok) .recv hw
  have hR := total_set isReport s.workers w (.report ok) .recv hw
  have hP := total_set workerPot s.workers w (.report ok) .recv hw
  simp only [isWork, isReport, workerPot] at hW hR hP
  refine ⟨⟨h1, ?_, h3, ?_, h5, h6, h7, ?_, h9, ?_⟩, ?_⟩
  · simp only [List.length_append, List.length_singleton]; omega
  · intro hmem
    exact h4 (mem_set_exited _ _ _ (by simp) hmem)
  · simp only [List.length_append, List.length_singleton]; omega
  · intro v hv
    exact h10 v (getElem?_set_exited _ _ _ _ (by simp) hv)
  · simp only [potential]; omega

/-- The eight ways a goroutine can move. -/
theorem step_next_cases (env : Env) (cfg : PoolCfg) (start : Int) (s s2 : Pool) (t : Tid)
    (hbody : BodyOk cfg) (h : step env cfg start s t = .next s2) :
    (∃ ok rest, s.collected < cfg.count ∧ s.results = ok :: rest ∧
      s2 = { s with results := rest, collected := s.collected + 1,
                    result := record s.result ok }) ∨
    (∃ i, s.producer = .loop i ∧ i < cfg.count ∧
      s2 = { s with jobs := s.jobs ++ [i],
                    producer := if cfg.interval > 0 then .pause i else .loop (i + 1) }) ∨
    (∃ i, s.producer = .loop i ∧ ¬ i < cfg.count ∧
      s2 = { s with jobsClosed := true, producer := .exited }) ∨
    (∃ i, s.producer = .pause i ∧
      s2 = { s with world := emit s.world (.sleep cfg.interval), producer := .loop (i + 1) }) ∨
    (∃ w i rest, s.workers[w]? = some .recv ∧ s.jobs = i :: rest ∧
      s2 = { s with jobs := rest, workers := s.workers.set w (.work i) }) ∨
    (∃ w, s.workers[w]? = some .recv ∧ s.jobs = [] ∧ s.jobsClosed = true ∧
      s2 = { s with workers := s.workers.set w .exited,
                    world := emit s.world (.workerDone w) }) ∨
    (∃ w i a w2, s.workers[w]? = some (.work i) ∧ w2.calls = s.world.calls ∧
      w2.trace = s.world.trace ∧
      s2 = { s with world := (sendAlert env w2 a).2,
                    workers := s.workers.set w (.report (sendAlert env w2 a).1) }) ∨
    (∃ w ok, s.workers[w]? = some (.report ok) ∧
      s2 = { s with results := s.results ++ [ok], workers := s.workers.set w .recv }) := by
  cases t with
  | main =>
    simp only [step, mainStep] at h
    split at h
    · rename_i hlt
      split at h
      · rename_i ok rest hres
        exact Or.inl ⟨ok, rest, hlt, hres, by simpa using h.symm⟩
      · exact absurd h (by simp)
    · split at h <;> exact absurd h (by simp)
  | producer =>
    simp only [step, producerStep] at h
    split at h
    · rename_i i hp
      split at h
      · rename_i hlt
        split at h
        · exact Or.inr (Or.inl ⟨i, hp, hlt, by simpa using h.symm⟩)
        · exact absurd h (by simp)
      · rename_i hge
        exact Or.inr (Or.inr (Or.inl ⟨i, hp, hge, by simpa using h.symm⟩))
    · rename_i i hp
      exact Or.inr (Or.inr (Or.inr (Or.inl ⟨i, hp, by simpa using h.symm⟩)))
    · exact absurd h (by simp)
  | worker w =>
    simp only [step, workerStep] at h
    split at h
    · exact absurd h (by simp)
    · rename_i hw
      split at h
      · rename_i i rest hjobs
        exact Or.inr (Or.inr (Or.inr (Or.inr (Or.inl
          ⟨w, i, rest, hw, hjobs, by simpa using h.symm⟩))))
      · rename_i hjobs
        split at h
        · rename_i hclosed
          exact Or.inr (Or.inr (Or.inr (Or.inr (Or.inr (Or.inl
            ⟨w, hw, hjobs, hclosed, by simpa using h.symm⟩)))))
        · exact absurd h (by simp)
    · rename_i i hw
      obtain ⟨a, w2, hb, hcalls, htrace⟩ := hbody env s.world i
      rw [hb] at h
      exact Or.inr (Or.inr (Or.inr (Or.inr (Or.inr (Or.inr (Or.inl
        ⟨w, i, a, w2, hw, hcalls, htrace, by simpa using h.symm⟩))))))
    · rename_i ok hw
      split at h
      · exact Or.inr (Or.inr (Or.inr (Or.inr (Or.inr (Or.inr (Or.inr
          ⟨w, ok, hw, by simpa using h.symm⟩))))))
      · exact absurd h (by simp)
    · exact absurd h (by simp)

/-- Every move keeps the invariant and the number of workers, and uses up some
of the potential. -/
theorem step_next_inv (env : Env) (cfg : PoolCfg) (start : Int) (s s2 : Pool) (t : Tid)
    (hbody : BodyOk cfg) (hinv : PoolInv cfg s) (h : step env cfg start s t = .next s2) :
    PoolInv cfg s2 ∧ potential cfg s2 < potential cfg s ∧
      s2.workers.length = s.workers.length := by
  rcases step_next_cases env cfg start s s2 t hbody h with
    ⟨ok, rest, hlt, hres, rfl⟩ | ⟨i, hp, hlt, rfl⟩ | ⟨i, hp, hge, rfl⟩ | ⟨i, hp, rfl⟩ |
    ⟨w, i, rest, hw, hjobs, rfl⟩ | ⟨w, hw, hjobs, hclosed, rfl⟩ |
    ⟨w, i, a, w2, hw, hcalls, htrace, rfl⟩ | ⟨w, ok, hw, rfl⟩
  · exact ⟨(inv_collect cfg s ok rest hinv hlt hres).1,
      (inv_collect cfg s ok rest hinv hlt hres).2, rfl⟩
  · exact ⟨(inv_push cfg s i hinv hp hlt).1, (inv_push cfg s i hinv hp hlt).2, rfl⟩
  · exact ⟨(inv_close cfg s i hinv hp hge).1, (inv_close cfg s i hinv hp hge).2, rfl⟩
  · exact ⟨(inv_pause cfg s i hinv hp).1, (inv_pause cfg s i hinv hp).2, rfl⟩
  · exact ⟨(inv_recv_job cfg s w i rest hinv hw hjobs).1,
      (inv_recv_job cfg s w i rest hinv hw hjobs).2, by simp⟩
  · exact ⟨(inv_recv_exit cfg s w hinv hw hjobs hclosed).1,
      (inv_recv_exit cfg s w hinv hw hjobs hclosed).2, by simp⟩
  · exact ⟨(inv_work env cfg s w i a w2 hinv hw hcalls htrace).1,
      (inv_work env cfg s w i a w2 hinv hw hcalls htrace).2, by simp⟩
  · exact ⟨(inv_report cfg s w ok hinv hw).1, (inv_report cfg s w ok hinv hw).2, by simp⟩

/-- With a sink that never fails, no move records a failure or starts one. -/
theorem step_next_allOk (env : Env) (cfg : PoolCfg) (start : Int) (s s2 : Pool) (t : Tid)
    (hbody : BodyOk cfg) (hsink : ∀ n a, env.sink n a = true) (hok : AllOk s)
    (h : step env cfg start s t = .next s2) : AllOk s2 := by
  obtain ⟨hf, hr, hw0⟩ := hok
  have hset : ∀ (w : Nat) (pc : WorkerPc), pc ≠ .report false →
      WorkerPc.report false ∉ s.workers.set w pc := by
    intro w pc hpc hmem
    rcases List.mem_or_eq_of_mem_set hmem with h1 | h1
    · exact hw0 h1
    · exact hpc h1.symm
  rcases step_next_cases env cfg start s s2 t hbody h with
    ⟨ok, rest, hlt, hres, rfl⟩ | ⟨i, hp, hlt, rfl⟩ | ⟨i, hp, hge, rfl⟩ | ⟨i, hp, rfl⟩ |
    ⟨w, i, rest, hw, hjobs, rfl⟩ | ⟨w, hw, hjobs, hclosed, rfl⟩ |
    ⟨w, i, a, w2, hw, hcalls, htrace, rfl⟩ | ⟨w, ok, hw, rfl⟩
  · have hokt : ok = true := hr ok (by rw [hres]; exact List.mem_cons_self ok rest)
    subst hokt
    refine ⟨?_, ?_, hw0⟩
    · simp only [record_Failed]; simpa using hf
    · intro b hb
      exact hr b (by rw [hres]; exact List.mem_cons_of_mem _ hb)
  · exact ⟨hf, hr, hw0⟩
  · exact ⟨hf, hr, hw0⟩
  · exact ⟨hf, hr, hw0⟩
  · exact ⟨hf, hr, hset w _ (by simp)⟩
  · exact ⟨hf, hr, hset w _ (by simp)⟩
  · refine ⟨hf, hr, hset w _ ?_⟩
    simp [sendAlert, hsink]
  · have hokt : ok = true := by
      cases ok
      · exact absurd (List.mem_iff_getElem?.mpr ⟨w, hw⟩) hw0
      · rfl
    subst hokt
    refine ⟨hf, ?_, hset w _ (by simp)⟩
    intro b hb
    rcases List.mem_append.mp hb with h1 | h1
    · exact hr b h1
    · simpa using h1

/-- A goroutine returns only from the calling goroutine, once all results are
counted and every worker has left; it then runs the closing lines. -/
theorem step_finished (env : Env) (cfg : PoolCfg) (start : Int) (s : Pool) (t : Tid)
    (run : Run) (h : step env cfg start s t = .finished run) :
    ¬ s.collected < cfg.count ∧ (∀ pc ∈ s.workers, pc = .exited) ∧
      run = finish env s.world start s.result := by
  cases t with
  | main =>
    simp only [step, mainStep] at h
    split at h
    · split at h <;> exact absurd h (by simp)
    · rename_i hge
      split at h
      · rename_i hall
        refine ⟨hge, ?_, by simpa using h.symm⟩
        intro pc hpc
        simpa using List.all_eq_true.mp hall pc hpc
      · exact absurd h (by simp)
  | producer =>
    simp only [step, producerStep] at h
    split at h
    · split at h
      · split at h <;> exact absurd h (by simp)
      · exact absurd h (by simp)
    · exact absurd h (by simp)
    · exact absurd h (by simp)
  | worker w =>
    simp only [step, workerStep] at h
    split at h
    · exact absurd h (by simp)
    · split at h
      · exact absurd h (by simp)
      · split at h <;> exact absurd h (by simp)
    · split at h <;> exact absurd h (by simp)
    · split at h <;> exact absurd h (by simp)
    · exact absurd h (by simp)

/-- No goroutine panics. -/
theorem step_no_panic (env : Env) (cfg : PoolCfg) (start : Int) (s : Pool) (t : Tid)
    (w : World) (msg : String) (hbody : BodyOk cfg) :
    step env cfg start s t ≠ .panic w msg := by
  intro h
  cases t with
  | main =>
    simp only [step, mainStep] at h
    split at h
    · split at h <;> exact absurd h (by simp)
    · split at h <;> exact absurd h (by simp)
  | producer =>
    simp only [step, producerStep] at h
    split at h
    · split at h
      · split at h <;> exact absurd h (by simp)
      · exact absurd h (by simp)
    · exact absurd h (by simp)
    · exact absurd h (by simp)
  | worker v =>
    simp only [step, workerStep] at h
    split at h
    · exact absurd h (by simp)
    · split at h
      · exact absurd h (by simp)
      · split at h <;> exact absurd h (by simp)
    · rename_i i hw
      obtain ⟨a, w2, hb, -, -⟩ := hbody env s.world i
      rw [hb] at h
      exact absurd h (by simp)
    · split at h <;> exact absurd h (by simp)
    · exact absurd h (by simp)

/-- Deadlock freedom: as long as there is a worker, or nothing to send, some
goroutine can move. -/
theorem progress (env : Env) (cfg : PoolCfg) (start : Int) (s : Pool) (hbody : BodyOk cfg)
    (hinv : PoolInv cfg s) (hworkers : 0 < s.workers.length ∨ cfg.count = 0) :
    enabled env cfg start s ≠ [] := by
  obtain ⟨h1, h2, h3, h4, h5, h6, h7, h8, h9, h10⟩ := hinv
  have hmain : Tid.main ∈ allTids s := by simp [allTids]
  have hprod : Tid.producer ∈ allTids s := by simp [allTids]
  have hen : ∀ t, t ∈ allTids s → step env cfg start s t ≠ .blocked →
      enabled env cfg start s ≠ [] := by
    intro t ht hstep
    exact List.ne_nil_of_mem (List.mem_filter.mpr ⟨ht, by simpa using hstep⟩)
  cases hp : s.producer with
  | loop i =>
    rw [hp] at h2
    simp only [pushed] at h2
    apply hen .producer hprod
    simp only [step, producerStep, hp]
    by_cases hlt : i < cfg.count
    · have hj : s.jobs.length < cfg.count := by omega
      simp [hlt, hj]
    · simp [hlt]
  | pause i =>
    apply hen .producer hprod
    simp [step, producerStep, hp]
  | exited =>
    have hclosed : s.jobsClosed = true := h3.mpr hp
    rw [hp] at h2
    simp only [pushed] at h2
    by_cases hall : ∀ pc ∈ s.workers, pc = .exited
    · apply hen .main hmain
      simp only [step, mainStep]
      by_cases hlt : s.collected < cfg.count
      · have hpos : 0 < s.workers.length := by
          rcases hworkers with h0 | h0
          · exact h0
          · omega
        obtain ⟨pc, hpc⟩ := List.exists_mem_of_length_pos hpos
        have hex : WorkerPc.exited ∈ s.workers := by
          rw [← hall pc hpc]; exact hpc
        have hjobs := (h4 hex).1
        have hW := total_eq_zero isWork s.workers
          (fun pc hpc => by rw [hall pc hpc]; rfl)
        have hR := total_eq_zero isReport s.workers
          (fun pc hpc => by rw [hall pc hpc]; rfl)
        rw [hjobs] at h2
        simp only [List.length_nil] at h2
        cases hres : s.results with
        | nil =>
          rw [hres] at h2
          simp only [List.length_nil] at h2
          omega
        | cons ok rest => simp [hlt]
      · have : s.workers.all (fun pc => decide (pc = .exited)) = true := by
          rw [List.all_eq_true]
          intro pc hpc
          simpa using hall pc hpc
        simp [hlt, this]
    · simp only [not_forall] at hall
      obtain ⟨pc, hpc, hne⟩ := hall
      obtain ⟨w, hw⟩ := List.mem_iff_getElem?.mp hpc
      have hwlt : w < s.workers.length := by
        obtain ⟨hlt, -⟩ := List.getElem?_eq_some.mp hw
        exact hlt
      apply hen (.worker w) (by simp [allTids, hwlt])
      simp only [step, workerStep, hw]
      cases pc with
      | recv =>
        cases hj : s.jobs with
        | nil => simp [hclosed]
        | cons i rest => simp
      | work i =>
        obtain ⟨a, w2, hb, -, -⟩ := hbody env s.world i
        simp [hb]
      | report ok =>
        have hR := le_total isReport s.workers w (.report ok) hw
        simp only [isReport] at hR
        have : s.results.length < cfg.count := by omega
        simp [this]
      | exited => exact absurd rfl hne

theorem getD_mem {α : Type} (t : α) (ts : List α) (k : Nat) :
    (t :: ts).getD (k % (ts.length + 1)) t ∈ t :: ts := by
  have hlt : k % (ts.length + 1) < (t :: ts).length := by
    simp only [List.length_cons]
    exact Nat.mod_lt _ (Nat.succ_pos _)
  rw [List.getD_eq_getElem _ _ hlt]
  exact List.getElem_mem hlt

/-- Termination of a pooled run under every schedule: from a state that
satisfies the invariant, with enough steps allowed and with a worker to serve
the jobs (or no job at all), the run ends with the return of the calling
goroutine, from a state in which every result is counted and every worker has
left.  Any property `Q` that the moves preserve holds in that state too. -/
theorem poolRun_returns (env : Env) (cfg : PoolCfg) (start : Int) (hbody : BodyOk cfg)
    (Q : Pool → Prop)
    (hQ : ∀ s t s2, PoolInv cfg s → Q s → step env cfg start s t = .next s2 → Q s2) :
    ∀ (fuel n : Nat) (s : Pool), PoolInv cfg s → Q s → potential cfg s < fuel →
      (0 < s.workers.length ∨ cfg.count = 0) →
      ∃ s2, PoolInv cfg s2 ∧ Q s2 ∧ ¬ s2.collected < cfg.count ∧
        (∀ pc ∈ s2.workers, pc = .exited) ∧ s2.workers.length = s.workers.length ∧
        poolRun env cfg start fuel n s = finish env s2.world start s2.result := by
  intro fuel
  induction fuel with
  | zero => intro n s _ _ hpot _; exact absurd hpot (Nat.not_lt_zero _)
  | succ fuel ih =>
    intro n s hinv hq hpot hworkers
    rw [poolRun]
    cases hen : enabled env cfg start s with
    | nil => exact absurd hen (progress env cfg start s hbody hinv hworkers)
    | cons t ts =>
      simp only []
      have hmem : (t :: ts).getD (env.sched n % (ts.length + 1)) t ∈ enabled env cfg start s := by
        rw [hen]; exact getD_mem t ts _
      have hnb : step env cfg start s ((t :: ts).getD (env.sched n % (ts.length + 1)) t)
          ≠ .blocked := by
        simpa using (List.mem_filter.mp hmem).2
      cases hstep : step env cfg start s ((t :: ts).getD (env.sched n % (ts.length + 1)) t) with
      | blocked => exact absurd hstep hnb
      | panic w msg => exact absurd hstep (step_no_panic env cfg start s _ w msg hbody)
      | finished run =>
        obtain ⟨hge, hall, hrun⟩ := step_finished env cfg start s _ run hstep
        exact ⟨s, hinv, hq, hge, hall, rfl, by simp only [hrun]⟩
      | next s2 =>
        obtain ⟨hinv2, hpot2, hlen2⟩ := step_next_inv env cfg start s s2 _ hbody hinv hstep
        have hq2 := hQ s _ s2 hinv hq hstep
        obtain ⟨s3, hinv3, hq3, hge, hall, hlen3, hrun⟩ :=
          ih (n + 1) s2 hinv2 hq2 (by omega) (by rw [hlen2]; exact hworkers)
        exact ⟨s3, hinv3, hq3, hge, hall, by rw [hlen3, hlen2], by simp only [hrun]⟩

theorem total_replicate (f : WorkerPc → Nat) (n : Nat) (pc : WorkerPc) :
    total f (List.replicate n pc) = n * f pc := by
  induction n with
  | zero => simp [total]
  | succ n ih =>
    simp only [total, List.replicate_succ, List.map_cons, List.sum_cons] at ih ⊢
    rw [ih]
    ring

/-- The state in which a pooled run starts satisfies the invariant, and its
potential is within the step budget. -/
theorem initPool_inv (cfg : PoolCfg) (concurrency : Int) (w : World) (hcalls : w.calls = 0)
    (htrace : w.trace = []) :
    PoolInv cfg (initPool concurrency w) ∧
    potential cfg (initPool concurrency w) < poolFuel cfg.count concurrency.toNat := by
  have hnoexit : WorkerPc.exited ∉ List.replicate concurrency.toNat WorkerPc.recv := by
    intro hmem
    exact absurd (List.eq_of_mem_replicate hmem) (by simp)
  refine ⟨⟨?_, ?_, ?_, ?_, ?_, ?_, ?_, ?_, ?_, ?_⟩, ?_⟩
  · simp [initPool, pushed]
  · simp [initPool, pushed, total_replicate, isWork, isReport]
  · simp [initPool]
  · intro hmem; exact absurd hmem hnoexit
  · simp [initPool]
  · simp [initPool]
  · simp [initPool]
  · simp [initPool, total_replicate, isReport, hcalls]
  · simp [initPool, htrace, hcalls, sendOutcomes]
  · intro v hv
    exact absurd (List.mem_iff_getElem?.mpr ⟨v, hv⟩) hnoexit
  · simp only [potential, initPool, producerPot, toPush, total_replicate, workerPot, poolFuel,
      List.length_nil]
    omega

/-- With nothing to send, no move reads the clock. -/
theorem step_next_reads (env : Env) (cfg : PoolCfg) (start : Int) (s s2 : Pool) (t : Tid)
    (hbody : BodyOk cfg) (hinv : PoolInv cfg s) (hcount : cfg.count = 0)
    (h : step env cfg start s t = .next s2) : s2.world.reads = s.world.reads := by
  rcases step_next_cases env cfg start s s2 t hbody h with
    ⟨ok, rest, hlt, hres, rfl⟩ | ⟨i, hp, hlt, rfl⟩ | ⟨i, hp, hge, rfl⟩ | ⟨i, hp, rfl⟩ |
    ⟨w, i, rest, hw, hjobs, rfl⟩ | ⟨w, hw, hjobs, hclosed, rfl⟩ |
    ⟨w, i, a, w2, hw, hcalls, htrace, rfl⟩ | ⟨w, ok, hw, rfl⟩
  · rfl
  · rfl
  · rfl
  · rfl
  · rfl
  · rfl
  · have h1 := hinv.pushed_le
    have h2 := hinv.conserve
    have hW := le_total isWork s.workers w (.work i) hw
    simp only [isWork] at hW
    omega
  · rfl

/-- A pooled run with at least one worker, or with nothing to send, under
every schedule: it returns a nil error after exactly `count` sink calls, with
`Sent + Failed = count`, once every worker has left its loop; a sink that never
fails gives `Sent = count` and `Failed = 0`; and a run with nothing to send
reads the clock once more, for the duration, and has rate zero. -/
theorem pool_summary (env : Env) (cfg : PoolCfg) (start : Int) (concurrency : Int)
    (w : World) (hbody : BodyOk cfg) (hcalls : w.calls = 0) (htrace : w.trace = [])
    (hworkers : 0 < concurrency.toNat ∨ cfg.count = 0) :
    ∃ res,
      (poolRun env cfg start (poolFuel cfg.count concurrency.toNat) 0
        (initPool concurrency w)).outcome = .returned res none ∧
      res.Sent + res.Failed = cfg.count ∧ 0 ≤ res.Sent ∧ 0 ≤ res.Failed ∧
      (sendOutcomes (poolRun env cfg start (poolFuel cfg.count concurrency.toNat) 0
        (initPool concurrency w)).trace).length = cfg.count ∧
      (∀ v, v < concurrency.toNat →
        v ∈ workersDone (poolRun env cfg start (poolFuel cfg.count concurrency.toNat) 0
          (initPool concurrency w)).trace) ∧
      ((∀ n a, env.sink n a = true) → res.Sent = cfg.count ∧ res.Failed = 0) ∧
      (cfg.count = 0 → res.Rate = 0 ∧ res.Duration = env.now w.reads - start) := by
  obtain ⟨hinv0, hpot0⟩ := initPool_inv cfg concurrency w hcalls htrace
  have hlen0 : (initPool concurrency w).workers.length = concurrency.toNat := by
    simp [initPool]
  obtain ⟨s2, hinv, ⟨hq1, hq2⟩, hge, hall, hlen, hrun⟩ :=
    poolRun_returns env cfg start hbody
      (fun s => ((∀ n a, env.sink n a = true) → AllOk s) ∧
        (cfg.count = 0 → s.world.reads = w.reads))
      (fun s t s2 hinv hq hstep =>
        ⟨fun hsink => step_next_allOk env cfg start s s2 t hbody hsink (hq.1 hsink) hstep,
         fun hc => by
          rw [step_next_reads env cfg start s s2 t hbody hinv hc hstep]; exact hq.2 hc⟩)
      (poolFuel cfg.count concurrency.toNat) 0 (initPool concurrency w) hinv0
      ⟨fun _ => ⟨rfl, by simp [initPool], by
          intro hmem
          exact absurd (List.eq_of_mem_replicate hmem) (by simp)⟩,
        fun _ => rfl⟩
      hpot0 (by rw [hlen0]; exact hworkers)
  obtain ⟨h1, h2, h3, h4, h5, h6, h7, h8, h9, h10⟩ := hinv
  have hW := total_eq_zero isWork s2.workers (fun pc hpc => by rw [hall pc hpc]; rfl)
  have hR := total_eq_zero isReport s2.workers (fun pc hpc => by rw [hall pc hpc]; rfl)
  have hcol : s2.collected = cfg.count := by omega
  have hsends : (sendOutcomes s2.world.trace).length = cfg.count := by omega
  obtain ⟨res, hres, hs, hf, hd, hrate⟩ := finish_outcome env s2.world start s2.result
  rw [hrun]
  refine ⟨res, hres, ?_, ?_, ?_, ?_, ?_, ?_, ?_⟩
  · rw [hs, hf, h5, hcol]
  · rw [hs]; exact h6.1
  · rw [hf]; exact h6.2
  · rw [finish_trace]; exact hsends
  · intro v hv
    rw [finish_trace]
    have hlt : v < s2.workers.length := by rw [hlen, hlen0]; exact hv
    obtain ⟨pc, hpc⟩ : ∃ pc, s2.workers[v]? = some pc :=
      ⟨s2.workers[v], List.getElem?_eq_getElem hlt⟩
    have hex := hall pc (List.mem_iff_getElem?.mpr ⟨v, hpc⟩)
    rw [hex] at hpc
    exact h10 v hpc
  · intro hsink
    have hF := (hq1 hsink).failed_zero
    rw [hs, hf, hF]
    rw [hF] at h5
    exact ⟨by rw [← hcol, ← h5]; ring, rfl⟩
  · intro hc
    have hS : s2.result.Sent = 0 := by
      have := h6.1
      have := h6.2
      rw [hcol, hc] at h5
      push_cast at h5
      omega
    exact ⟨hrate hS h7, by rw [hd, hq2 hc]⟩

theorem randomAlert_ok (count : Nat) (interval : Int) :
    BodyOk { count := count, interval := interval, body := randomAlert } := by
  intro env w i
  have h1 : env.rand w.draws % severities.length < severities.length :=
    Nat.mod_lt _ (by rw [severities_length]; omega)
  have h2 : env.rand (w.draws + 1) % priorities.length < priorities.length :=
    Nat.mod_lt _ (by rw [priorities_length]; omega)
  simp only [randomAlert, randIntn, timeNow, goIndex_getD severities _ "" h1,
    goIndex_getD priorities _ "" h2, bind, Except.bind, pure, Except.pure]
  exact ⟨_, _, rfl, rfl, rfl⟩

theorem mixedAlert_ok (count : Nat) (interval : Int) :
    BodyOk { count := count, interval := interval, body := mixedAlert } := by
  intro env w i
  have h1 : env.rand w.draws % templates.length < templates.length :=
    Nat.mod_lt _ (by decide)
  simp only [mixedAlert, randIntn, timeNow, goIndex_getD templates _ ⟨"", "", "", ""⟩ h1,
    bind, Except.bind, pure, Except.pure]
  exact ⟨_, _, rfl, rfl, rfl⟩

/-- C3. Pooled scenarios against a sink that never fails: for every count
`>= 0`, every concurrency `>= 1` and every schedule of the goroutines, the
random and the mixed scenario return a nil error with `Sent = Count` and
`Failed = 0` after exactly `Count` sink calls, and the exit of every worker
precedes the return. -/
theorem pooled_reliable_sink (env : Env) (opts : ScenarioOptions) (hcount : 0 ≤ opts.Count)
    (hconc : 1 ≤ opts.Concurrency) (hsink : ∀ n a, env.sink n a = true) :
    AllSent opts.Count opts.Concurrency.toNat (generateRandomScenario env opts) ∧
    AllSent opts.Count opts.Concurrency.toNat (generateMixedScenario env opts) := by
  have hneg : ¬ opts.Count < 0 := by omega
  have hn : ((opts.Count.toNat : Nat) : Int) = opts.Count := Int.toNat_of_nonneg hcount
  constructor
  · obtain ⟨res, hout, -, -, -, hsends, hdone, hall, -⟩ :=
      pool_summary env { count := opts.Count.toNat, interval := opts.Interval, body := randomAlert }
        (timeNow env {}).1 opts.Concurrency (timeNow env {}).2 (randomAlert_ok _ _) rfl rfl
        (Or.inl (by omega))
    simp only [AllSent, generateRandomScenario, hneg, if_false]
    obtain ⟨hS, hF⟩ := hall hsink
    exact ⟨⟨res, hout, by rw [hS, hn], hF⟩, by rw [hsends, hn], hdone⟩
  · obtain ⟨res, hout, -, -, -, hsends, hdone, hall, -⟩ :=
      pool_summary env { count := opts.Count.toNat, interval := opts.Interval, body := mixedAlert }
        (timeNow env {}).1 opts.Concurrency (timeNow env {}).2 (mixedAlert_ok _ _) rfl rfl
        (Or.inl (by omega))
    simp only [AllSent, generateMixedScenario, hneg, if_false]
    obtain ⟨hS, hF⟩ := hall hsink
    exact ⟨⟨res, hout, by rw [hS, hn], hF⟩, by rw [hsends, hn], hdone⟩

theorem pooled_reliable_sink_witness :
    (0 : Int) ≤ (poolOpts 3 5).Count ∧ (1 : Int) ≤ (poolOpts 3 5).Concurrency ∧
    (∀ n a, (sampleEnv reliableSink neverDone).sink n a = true) ∧
    AllSent 3 5 (generateRandomScenario (sampleEnv reliableSink neverDone) (poolOpts 3 5)) ∧
    AllSent 3 5 (generateMixedScenario (sampleEnv reliableSink neverDone) (poolOpts 3 5)) :=
  ⟨by decide, by decide, fun _ _ => rfl,
    pooled_reliable_sink (sampleEnv reliableSink neverDone) (poolOpts 3 5) (by decide)
      (by decide) (fun _ _ => rfl)⟩

/-! ## Theorems: the empty run -/

theorem escalating_empty (env : Env) (opts : ScenarioOptions) (hcount : opts.Count = 0) :
    EmptyRun env (generateEscalatingScenario env opts) := by
  have hgen : generateEscalatingScenario env opts
      = finish env (timeNow env {}).2 (timeNow env {}).1 {} := by
    simp only [generateEscalatingScenario, hcount, Int.toNat_zero, escalatingLoop]
  obtain ⟨res, hres, hs, hf, hd, hrate⟩ :=
    finish_outcome env (timeNow env {}).2 (timeNow env {}).1 {}
  rw [hgen]
  exact ⟨res, hres, hs, hf, hrate rfl rfl, hd, rfl⟩

theorem burst_empty (env : Env) (opts : ScenarioOptions) (hcount : opts.Count = 0) :
    EmptyRun env (generateBurstScenario env opts) := by
  have hgen : generateBurstScenario env opts
      = finish env (timeNow env {}).2 (timeNow env {}).1 {} := by
    simp only [generateBurstScenario, hcount, Int.toNat_zero, burstLoop]
  obtain ⟨res, hres, hs, hf, hd, hrate⟩ :=
    finish_outcome env (timeNow env {}).2 (timeNow env {}).1 {}
  rw [hgen]
  exact ⟨res, hres, hs, hf, hrate rfl rfl, hd, rfl⟩

theorem pool_empty (env : Env) (opts : ScenarioOptions) (hcount : opts.Count = 0)
    (body : Env → World → Nat → Except String (Alert × World))
    (hbody : BodyOk { count := opts.Count.toNat, interval := opts.Interval, body := body }) :
    EmptyRun env
      (poolRun env { count := opts.Count.toNat, interval := opts.Interval, body := body }
        (timeNow env {}).1 (poolFuel opts.Count.toNat opts.Concurrency.toNat) 0
        (initPool opts.Concurrency (timeNow env {}).2)) := by
  have h0 : opts.Count.toNat = 0 := by rw [hcount]; rfl
  obtain ⟨res, hout, hsum, hS, hF, hsends, -, -, hzero⟩ :=
    pool_summary env { count := opts.Count.toNat, interval := opts.Interval, body := body }
      (timeNow env {}).1 opts.Concurrency (timeNow env {}).2 hbody rfl rfl (Or.inr h0)
  obtain ⟨hrate, hdur⟩ := hzero h0
  have hsum0 : res.Sent + res.Failed = 0 := by
    rw [hsum]
    exact_mod_cast h0
  refine ⟨res, hout, ?_, ?_, hrate, hdur, ?_⟩
  · omega
  · omega
  · exact List.length_eq_zero.mp (hsends.trans h0)

theorem empty_run_counterexample :
    ∃ res, (generateEscalatingScenario (sampleEnv reliableSink neverDone)
        (sampleOpts 0)).outcome = .returned res none ∧ res.Duration = 1000 := by
  obtain ⟨res, hout, -, -, -, hd, -⟩ :=
    escalating_empty (sampleEnv reliableSink neverDone) (sampleOpts 0) rfl
  exact ⟨res, hout, by rw [hd]; rfl⟩

/-- C5 (amended). Empty run: for a count of zero each of the four scenarios
returns a nil error and a result with `Sent = 0`, `Failed = 0` and `Rate = 0`,
without a panic (no division by zero) and without a sink call; `Duration` is
the time between the two clock readings of the run, which need not be zero.
For the pooled scenarios this holds for every concurrency and every schedule. -/
theorem empty_run (env : Env) (opts : ScenarioOptions) (hcount : opts.Count = 0) :
    EmptyRun env (generateEscalatingScenario env opts) ∧
    EmptyRun env (generateRandomScenario env opts) ∧
    EmptyRun env (generateBurstScenario env opts) ∧
    EmptyRun env (generateMixedScenario env opts) := by
  have hneg : ¬ opts.Count < 0 := by omega
  refine ⟨escalating_empty env opts hcount, ?_, burst_empty env opts hcount, ?_⟩
  · simp only [generateRandomScenario, hneg, if_false]
    exact pool_empty env opts hcount randomAlert (randomAlert_ok _ _)
  · simp only [generateMixedScenario, hneg, if_false]
    exact pool_empty env opts hcount mixedAlert (mixedAlert_ok _ _)

theorem empty_run_witness :
    (sampleOpts 0).Count = 0 ∧
    EmptyRun (sampleEnv oddFailingSink neverDone)
      (generateEscalatingScenario (sampleEnv oddFailingSink neverDone) (sampleOpts 0)) ∧
    EmptyRun (sampleEnv oddFailingSink neverDone)
      (generateRandomScenario (sampleEnv oddFailingSink neverDone) (sampleOpts 0)) ∧
    EmptyRun (sampleEnv oddFailingSink neverDone)
      (generateBurstScenario (sampleEnv oddFailingSink neverDone) (sampleOpts 0)) ∧
    EmptyRun (sampleEnv oddFailingSink neverDone)
      (generateMixedScenario (sampleEnv oddFailingSink neverDone) (sampleOpts 0)) :=
  ⟨rfl, empty_run (sampleEnv oddFailingSink neverDone) (sampleOpts 0) rfl⟩

/-! ## Theorems: dispatch -/

theorem escalatingLoop_error (env : Env) (total interval : Int) :
    ∀ (rem i : Nat) (w : World) (result : ScenarioResult) (w2 : World)
      (result2 : ScenarioResult) (e : GoError),
      escalatingLoop env total interval rem i w result = .returned w2 result2 e →
      e = .ctxErr := by
  intro rem
  induction rem with
  | zero =>
    intro i w result w2 result2 e h
    simp [escalatingLoop] at h
  | succ rem ih =>
    intro i w result w2 result2 e h
    rw [escalatingLoop] at h
    simp only [] at h
    split at h
    · simp only [LoopExit.returned.injEq] at h
      exact h.2.2.symm
    · split at h
      · exact absurd h (by simp)
      · exact ih _ _ _ _ _ _ h

theorem burstLoop_not_returned (env : Env) (count interval b pd : Int) :
    ∀ (rem i : Nat) (w : World) (result : ScenarioResult) (w2 : World)
      (result2 : ScenarioResult) (e : GoError),
      burstLoop env count interval b pd rem i w result ≠ .returned w2 result2 e := by
  intro rem
  induction rem with
  | zero =>
    intro i w result w2 result2 e h
    simp [burstLoop] at h
  | succ rem ih =>
    intro i w result w2 result2 e h
    rw [burstLoop] at h
    simp only [] at h
    split at h
    · exact absurd h (by simp)
    · split at h
      · exact absurd h (by simp)
      · split at h
        · exact absurd h (by simp)
        · exact ih _ _ _ _ _ _ h

theorem poolRun_no_error (env : Env) (cfg : PoolCfg) (start : Int) :
    ∀ (fuel n : Nat) (s : Pool) (res : ScenarioResult) (e : GoError),
      (poolRun env cfg start fuel n s).outcome ≠ .returned res (some e) := by
  intro fuel
  induction fuel with
  | zero =>
    intro n s res e h
    simp [poolRun] at h
  | succ fuel ih =>
    intro n s res e h
    rw [poolRun] at h
    split at h
    · simp at h
    · split at h
      · simp at h
      · exact ih _ _ _ _ h
      · simp at h
      · rename_i run hstep
        obtain ⟨-, -, hrun⟩ := step_finished env cfg start s _ run hstep
        obtain ⟨r, hr, -⟩ := finish_outcome env s.world start s.result
        rw [hrun, hr] at h
        simp at h

/-- None of the four scenario procedures returns an error built by `fmt.Errorf`. -/
theorem generators_no_errorf (env : Env) (opts : ScenarioOptions) (res : ScenarioResult)
    (msg : String) :
    (generateEscalatingScenario env opts).outcome ≠ .returned res (some (.errorf msg)) ∧
    (generateRandomScenario env opts).outcome ≠ .returned res (some (.errorf msg)) ∧
    (generateBurstScenario env opts).outcome ≠ .returned res (some (.errorf msg)) ∧
    (generateMixedScenario env opts).outcome ≠ .returned res (some (.errorf msg)) := by
  refine ⟨?_, ?_, ?_, ?_⟩
  · intro h
    simp only [generateEscalatingScenario] at h
    split at h
    · rename_i w result hloop
      obtain ⟨r, hr, -⟩ := finish_outcome env w (timeNow env {}).1 result
      rw [hr] at h
      simp at h
    · rename_i w result err hloop
      have := escalatingLoop_error _ _ _ _ _ _ _ _ _ _ hloop
      subst this
      simp at h
    · simp at h
  · intro h
    simp only [generateRandomScenario] at h
    split at h
    · simp at h
    · exact poolRun_no_error _ _ _ _ _ _ _ _ h
  · intro h
    simp only [generateBurstScenario] at h
    split at h
    · rename_i w result hloop
      obtain ⟨r, hr, -⟩ := finish_outcome env w (timeNow env {}).1 result
      rw [hr] at h
      simp at h
    · rename_i w result err hloop
      exact burstLoop_not_returned _ _ _ _ _ _ _ _ _ _ _ _ hloop
    · simp at h
  · intro h
    simp only [generateMixedScenario] at h
    split at h
    · simp at h
    · exact poolRun_no_error _ _ _ _ _ _ _ _ h

/-- C6. Unknown-scenario dispatch: for each of the four registered names
`RunScenario` returns exactly what the registered procedure returns, which is
never an `fmt.Errorf` error; for every other name it returns the error
"unknown scenario: <name>" with the zero result and an empty trace (no sink
call).  So the unknown-scenario error is returned exactly for the names that
are not registered. -/
theorem run_scenario_dispatch (env : Env) (name : String) (opts : ScenarioOptions) :
    RunScenario env "escalating" opts = generateEscalatingScenario env opts ∧
    RunScenario env "random" opts = generateRandomScenario env opts ∧
    RunScenario env "burst" opts = generateBurstScenario env opts ∧
    RunScenario env "mixed" opts = generateMixedScenario env opts ∧
    (name ∉ ["escalating", "random", "burst", "mixed"] →
      RunScenario env name opts
        = { trace := [],
            outcome := .returned {} (some (.errorf ("unknown scenario: " ++ name))) }) ∧
    (name ∈ ["escalating", "random", "burst", "mixed"] →
      ∀ res msg, (RunScenario env name opts).outcome ≠ .returned res (some (.errorf msg))) := by
  have h1 : RunScenario env "escalating" opts = generateEscalatingScenario env opts := rfl
  have h2 : RunScenario env "random" opts = generateRandomScenario env opts := rfl
  have h3 : RunScenario env "burst" opts = generateBurstScenario env opts := rfl
  have h4 : RunScenario env "mixed" opts = generateMixedScenario env opts := rfl
  refine ⟨h1, h2, h3, h4, ?_, ?_⟩
  · intro hname
    simp only [List.mem_cons, List.mem_singleton, List.not_mem_nil, or_false, not_or] at hname
    obtain ⟨n1, n2, n3, n4⟩ := hname
    have b1 : (name == "escalating") = false := beq_eq_false_iff_ne.mpr n1
    have b2 : (name == "random") = false := beq_eq_false_iff_ne.mpr n2
    have b3 : (name == "burst") = false := beq_eq_false_iff_ne.mpr n3
    have b4 : (name == "mixed") = false := beq_eq_false_iff_ne.mpr n4
    simp only [RunScenario, scenarios, List.lookup, b1, b2, b3, b4]
  · intro hname res msg
    obtain ⟨g1, g2, g3, g4⟩ := generators_no_errorf env opts res msg
    simp only [List.mem_cons, List.mem_singleton, List.not_mem_nil, or_false] at hname
    rcases hname with rfl | rfl | rfl | rfl
    · rw [h1]; exact g1
    · rw [h2]; exact g2
    · rw [h3]; exact g3
    · rw [h4]; exact g4

theorem run_scenario_dispatch_witness :
    "flood" ∉ ["escalating", "random", "burst", "mixed"] ∧
    RunScenario (sampleEnv reliableSink neverDone) "flood" (sampleOpts 3)
      = { trace := [], outcome := .returned {} (some (.errorf "unknown scenario: flood")) } ∧
    "burst" ∈ ["escalating", "random", "burst", "mixed"] ∧
    RunScenario (sampleEnv reliableSink neverDone) "burst" (sampleOpts 3)
      = generateBurstScenario (sampleEnv reliableSink neverDone) (sampleOpts 3) ∧
    (∀ res msg, (RunScenario (sampleEnv reliableSink neverDone) "burst" (sampleOpts 3)).outcome
      ≠ .returned res (some (.errorf msg))) := by
  obtain ⟨-, -, hburst, -, hunknown, -⟩ :=
    run_scenario_dispatch (sampleEnv reliableSink neverDone) "flood" (sampleOpts 3)
  obtain ⟨-, -, -, -, -, hknown⟩ :=
    run_scenario_dispatch (sampleEnv reliableSink neverDone) "burst" (sampleOpts 3)
  exact ⟨by decide, hunknown (by decide), by decide, hburst, hknown (by decide)⟩

/-! ## Theorems: the burst delays -/

theorem succ_mod_eq_zero_iff (i b : Nat) (hb : 1 ≤ b) : (i + 1) % b = 0 ↔ i % b = b - 1 := by
  have hr : i % b < b := Nat.mod_lt i (by omega)
  by_cases h1 : b = 1
  · subst h1
    omega
  · have hone : 1 % b = 1 := Nat.mod_eq_of_lt (by omega)
    rw [Nat.add_mod, hone]
    by_cases h2 : i % b + 1 < b
    · rw [Nat.mod_eq_of_lt h2]
      omega
    · have h3 : i % b + 1 = b := by omega
      rw [h3, Nat.mod_self]
      omega

theorem takeDelays_burstBlock (env : Env) (n b : Nat) (hb : 1 ≤ b) (interval pd : Int)
    (i : Nat) (rest : List Event) :
    takeDelays (burstBlock env n interval b pd i ++ rest)
      = if 0 < i ∧ i % b = 0 then [Event.pause pd] else [] := by
  rw [burstBlock_nat env n b hb]
  split <;> simp [takeDelays]

theorem takeDelays_blocks (env : Env) (n b : Nat) (hb : 1 ≤ b) (interval pd : Int)
    (i k : Nat) :
    takeDelays ((List.range' i k).flatMap (burstBlock env n interval b pd))
      = if k = 0 then [] else if 0 < i ∧ i % b = 0 then [Event.pause pd] else [] := by
  cases k with
  | zero => rfl
  | succ k =>
    rw [List.range'_succ, List.flatMap_cons, takeDelays_burstBlock env n b hb]
    simp

theorem delaysAfter_burstBlock (env : Env) (n b : Nat) (hb : 1 ≤ b) (interval pd : Int)
    (i : Nat) (rest : List Event) :
    delaysAfter (burstBlock env n interval b pd i ++ rest)
      = ((if i % b ≠ b - 1 ∧ i + 1 < n then [Event.sleep interval] else [])
          ++ takeDelays rest) :: delaysAfter rest := by
  rw [burstBlock_nat env n b hb]
  split <;> split <;> simp [delaysAfter, takeDelays]

/-- The delays that follow each sink call of a run of consecutive blocks
ending with the run: one delay between two sink calls, the pause at a burst
boundary and the interval sleep otherwise, and none after the last call. -/
theorem delaysAfter_blocks (env : Env) (n b : Nat) (hb : 1 ≤ b) (interval pd : Int) :
    ∀ (k i : Nat), i + k = n →
      delaysAfter ((List.range' i k).flatMap (burstBlock env n interval b pd))
        = (List.range' i k).map (fun j =>
            if j + 1 < n then
              if (j + 1) % b = 0 then [Event.pause pd] else [Event.sleep interval]
            else []) := by
  intro k
  induction k with
  | zero => intro i _; rfl
  | succ k ih =>
    intro i hik
    rw [List.range'_succ, List.flatMap_cons, delaysAfter_burstBlock env n b hb,
      takeDelays_blocks env n b hb, ih (i + 1) (by omega), List.map_cons]
    congr 1
    have hmod := succ_mod_eq_zero_iff i b hb
    by_cases hk : k = 0
    · have hlast : ¬ i + 1 < n := by omega
      simp [hk, hlast]
    · have hnext : i + 1 < n := by omega
      by_cases hz : (i + 1) % b = 0
      · have hend : i % b = b - 1 := hmod.mp hz
        simp [hk, hnext, hz, hend]
      · have hend : ¬ i % b = b - 1 := fun h => hz (hmod.mpr h)
        simp [hk, hnext, hz, hend]

theorem head_burstBlock (env : Env) (count interval b pd : Int) (l : List Nat) (ms : Int) :
    (l.flatMap (burstBlock env count interval b pd)).head? ≠ some (Event.sleep ms) := by
  cases l with
  | nil => simp
  | cons i tl =>
    rw [List.flatMap_cons]
    unfold burstBlock
    split <;> simp

theorem sleptAfter_burstBlock (env : Env) (n b : Nat) (hb : 1 ≤ b) (interval pd : Int)
    (i : Nat) (rest : List Event) (hrest : ∀ ms, rest.head? ≠ some (Event.sleep ms)) :
    sleptAfter (burstBlock env n interval b pd i ++ rest)
      = (if i % b ≠ b - 1 ∧ i + 1 < n then ["burst-" ++ fmtInt (i : Int)] else []) ++
          sleptAfter rest := by
  rw [burstBlock_nat env n b hb]
  cases rest with
  | nil => split <;> split <;> simp [sleptAfter, burstAlertAt]
  | cons e tl =>
    cases e with
    | sleep ms => exact absurd rfl (hrest ms)
    | send a ok => split <;> split <;> simp [sleptAfter, burstAlertAt]
    | print line => split <;> split <;> simp [sleptAfter, burstAlertAt]
    | pause ms => split <;> split <;> simp [sleptAfter, burstAlertAt]
    | workerDone w => split <;> split <;> simp [sleptAfter, burstAlertAt]

theorem sleptAfter_flatMap_burstBlock (env : Env) (n b : Nat) (hb : 1 ≤ b)
    (interval pd : Int) (l : List Nat) :
    sleptAfter (l.flatMap (burstBlock env n interval b pd))
      = (l.filter (fun i => decide (i % b ≠ b - 1 ∧ i + 1 < n))).map
          (fun i => "burst-" ++ fmtInt (i : Int)) := by
  induction l with
  | nil => rfl
  | cons i tl ih =>
    rw [List.flatMap_cons, sleptAfter_burstBlock env n b hb interval pd i _
      (head_burstBlock env n interval b pd tl), ih]
    by_cases h : i % b ≠ b - 1 ∧ i + 1 < n
    · rw [if_pos h, List.filter_cons_of_pos (by simpa using h)]
      rfl
    · rw [if_neg h, List.filter_cons_of_neg (by simpa using h)]
      rfl

/-- C12. Burst delay schedule: with an effective burst size `b >= 1` and `n`
alerts to send (every `n`, the claim's `n >= 1` included), the run is the
sequence, for `i = 0, ..., n - 1`, of the pause at a burst boundary, the sink
call of alert `i`, and the interval sleep, taken exactly when `i mod b` is not
`b - 1` and `i + 1 < n`.  So the alerts whose sink call is directly followed by
the interval sleep are those of these indices, and the delays after the sink
call of alert `i` are: for `i + 1 < n` exactly one, the pause when
`(i + 1) mod b = 0` and the interval sleep otherwise; for the last alert none. -/
theorem burst_delay_schedule (env : Env) (opts : ScenarioOptions) (b n : Nat) (hb : 1 ≤ b)
    (hsize : burstSizeOf opts.Params = b) (hn : opts.Count = n) :
    (generateBurstScenario env opts).trace
      = (List.range n).flatMap (fun i =>
          (if 0 < i ∧ i % b = 0 then
            [Event.print ("Pausing for " ++ fmtInt (pauseDurationOf opts.Params)
                ++ " ms after burst\n"),
             Event.pause (pauseDurationOf opts.Params)]
           else []) ++
          [Event.send (burstAlertAt env b i) (env.sink i (burstAlertAt env b i))] ++
          (if i % b ≠ b - 1 ∧ i + 1 < n then [Event.sleep opts.Interval] else [])) ∧
    sleptAfter (generateBurstScenario env opts).trace
      = ((List.range n).filter (fun i => decide (i % b ≠ b - 1 ∧ i + 1 < n))).map
          (fun i => "burst-" ++ fmtInt (i : Int)) ∧
    delaysAfter (generateBurstScenario env opts).trace
      = (List.range n).map (fun i =>
          if i + 1 < n then
            if (i + 1) % b = 0 then [Event.pause (pauseDurationOf opts.Params)]
            else [Event.sleep opts.Interval]
          else []) := by
  have hne : burstSizeOf opts.Params ≠ 0 := by rw [hsize]; omega
  obtain ⟨htr, -, -⟩ := burst_run env opts n hn hne
  rw [hsize] at htr
  refine ⟨?_, ?_, ?_⟩
  · rw [htr]
    congr 1
    funext i
    exact burstBlock_nat env n b hb opts.Interval (pauseDurationOf opts.Params) i
  · rw [htr, sleptAfter_flatMap_burstBlock env n b hb]
  · rw [htr, List.range_eq_range',
      delaysAfter_blocks env n b hb opts.Interval (pauseDurationOf opts.Params) n 0 (by omega)]

theorem burst_delay_schedule_witness :
    1 ≤ 3 ∧ burstSizeOf (paramOpts 7 (burstParams "3" "0")).Params = (3 : Nat) ∧
    (paramOpts 7 (burstParams "3" "0")).Count = (7 : Nat) ∧
    sleptAfter (generateBurstScenario (sampleEnv reliableSink neverDone)
        (paramOpts 7 (burstParams "3" "0"))).trace
      = ["burst-0", "burst-1", "burst-3", "burst-4"] ∧
    delaysAfter (generateBurstScenario (sampleEnv reliableSink neverDone)
        (paramOpts 7 (burstParams "3" "0"))).trace
      = [[Event.sleep 5], [Event.sleep 5], [Event.pause 0], [Event.sleep 5], [Event.sleep 5],
         [Event.pause 0], []] := by
  obtain ⟨-, hslept, hdelays⟩ :=
    burst_delay_schedule (sampleEnv reliableSink neverDone) (paramOpts 7 (burstParams "3" "0"))
      3 7 (by decide) (by decide) (by decide)
  refine ⟨by decide, by decide, by decide, ?_, ?_⟩
  · rw [hslept]
    decide
  · rw [hdelays]
    decide

/-! ## Theorems: well-formed alerts -/

theorem sentAlerts_append (a b : List Event) :
    sentAlerts (a ++ b) = sentAlerts a ++ sentAlerts b := by
  simp [sentAlerts, List.filterMap_append]

theorem goIndex_mem {α : Type} (xs : List α) (i : Int) (x : α) (h : goIndex xs i = .ok x) :
    x ∈ xs := by
  unfold goIndex at h
  split at h
  · split at h
    · rename_i y hy
      simp only [Except.ok.injEq] at h
      rw [← h]
      exact List.getElem?_mem hy
    · exact absurd h (by simp)
  · exact absurd h (by simp)

theorem append_ne_empty (head tail : String) (h : 0 < head.length) : head ++ tail ≠ "" := by
  intro hc
  have hlen := congrArg String.length hc
  rw [String.length_append] at hlen
  have h0 : "".length = 0 := rfl
  omega

/-- Whatever the index and the total, an alert the escalating scenario builds
is well formed. -/
theorem escalatingAlert_wf (i total ts : Int) (a : Alert)
    (h : escalatingAlert i total ts = .ok a) : wellFormed a = true := by
  unfold escalatingAlert at h
  simp only [bind, Except.bind, pure, Except.pure] at h
  split at h
  · exact absurd h (by simp)
  · split at h
    · exact absurd h (by simp)
    · split at h
      · exact absurd h (by simp)
      · rename_i sev hsev
        split at h
        · exact absurd h (by simp)
        · rename_i pri hpri
          simp only [Except.ok.injEq] at h
          subst h
          have h1 : sev ∈ severityNames := goIndex_mem _ _ _ hsev
          have h2 : pri ∈ priorityNames := goIndex_mem _ _ _ hpri
          simp only [wellFormed, decide_eq_true_eq]
          exact ⟨append_ne_empty _ _ (by decide), h1, h2⟩

/-- Whatever the index, the burst size and the draw, an alert the burst
scenario builds is well formed and has priority "high". -/
theorem burstAlert_wf (i burstSize : Int) (sevIdx : Nat) (ts : Int) (a : Alert)
    (h : burstAlert i burstSize sevIdx ts = .ok a) :
    wellFormed a = true ∧ a.Priority = "high" := by
  unfold burstAlert at h
  simp only [bind, Except.bind, pure, Except.pure] at h
  split at h
  · exact absurd h (by simp)
  · rename_i sev hsev
    split at h
    · exact absurd h (by simp)
    · simp only [Except.ok.injEq] at h
      subst h
      have h1 : sev ∈ severityNames := goIndex_mem _ _ _ hsev
      refine ⟨?_, rfl⟩
      simp only [wellFormed, decide_eq_true_eq]
      exact ⟨append_ne_empty _ _ (by decide), h1, by decide⟩

/-- An alert the random scenario builds is well formed, and building it adds
nothing to the trace. -/
theorem randomAlert_wf (env : Env) (w : World) (i : Nat) (a : Alert) (w2 : World)
    (h : randomAlert env w i = .ok (a, w2)) : wellFormed a = true ∧ w2.trace = w.trace := by
  unfold randomAlert at h
  simp only [bind, Except.bind, pure, Except.pure] at h
  split at h
  · exact absurd h (by simp)
  · rename_i sev hsev
    split at h
    · exact absurd h (by simp)
    · rename_i pri hpri
      simp only [Except.ok.injEq, Prod.mk.injEq] at h
      obtain ⟨ha, hw⟩ := h
      subst ha
      subst hw
      have h1 : sev ∈ severityNames := goIndex_mem _ _ _ hsev
      have h2 : pri ∈ priorityNames := goIndex_mem _ _ _ hpri
      simp only [wellFormed, decide_eq_true_eq]
      exact ⟨⟨append_ne_empty _ _ (by decide), h1, h2⟩, rfl⟩

theorem templates_enumerated :
    ∀ t ∈ templates, t.severity ∈ severityNames ∧ t.priority ∈ priorityNames := by
  decide

/-- An alert the mixed scenario builds is well formed, and building it adds
nothing to the trace. -/
theorem mixedAlert_wf (env : Env) (w : World) (i : Nat) (a : Alert) (w2 : World)
    (h : mixedAlert env w i = .ok (a, w2)) : wellFormed a = true ∧ w2.trace = w.trace := by
  unfold mixedAlert at h
  simp only [bind, Except.bind, pure, Except.pure] at h
  split at h
  · exact absurd h (by simp)
  · rename_i tmpl htmpl
    simp only [Except.ok.injEq, Prod.mk.injEq] at h
    obtain ⟨ha, hw⟩ := h
    subst ha
    subst hw
    obtain ⟨h1, h2⟩ := templates_enumerated tmpl (goIndex_mem _ _ _ htmpl)
    simp only [wellFormed, decide_eq_true_eq]
    exact ⟨⟨append_ne_empty _ _ (by decide), h1, h2⟩, rfl⟩

theorem sentAlerts_emit (w : World) (e : Event) (h : ∀ a ok, e ≠ Event.send a ok) :
    sentAlerts (emit w e).trace = sentAlerts w.trace := by
  cases e with
  | send a ok => exact absurd rfl (h a ok)
  | sleep ms => simp [emit, sentAlerts]
  | print line => simp [emit, sentAlerts]
  | pause ms => simp [emit, sentAlerts]
  | workerDone v => simp [emit, sentAlerts]

theorem sentAlerts_sendAlert (env : Env) (w : World) (a : Alert) :
    sentAlerts (sendAlert env w a).2.trace = sentAlerts w.trace ++ [a] := by
  simp [sendAlert, sentAlerts]

/-- Every alert the escalating loop hands to the sink is well formed,
whatever the cancellation signal and however the loop is left. -/
theorem escalatingLoop_sent (env : Env) (total interval : Int) :
    ∀ (rem i : Nat) (w : World) (result : ScenarioResult),
      (∀ a ∈ sentAlerts w.trace, wellFormed a = true) →
      ∀ a ∈ sentAlerts (escalatingLoop env total interval rem i w result).world.trace,
        wellFormed a = true := by
  intro rem
  induction rem with
  | zero =>
    intro i w result hw
    simpa [escalatingLoop, LoopExit.world] using hw
  | succ rem ih =>
    intro i w result hw
    rw [escalatingLoop]
    simp only []
    split
    · simpa [LoopExit.world, ctxDone] using hw
    · split
      · simpa [LoopExit.world, ctxDone] using hw
      · rename_i alert halert
        apply ih
        have hwf := escalatingAlert_wf _ _ _ _ halert
        have hsent : ∀ a ∈ sentAlerts
            (sendAlert env (timeNow env (ctxDone env w).2).2 alert).2.trace,
            wellFormed a = true := by
          intro a ha
          rw [sentAlerts_sendAlert] at ha
          rcases List.mem_append.mp ha with h1 | h1
          · exact hw a (by simpa [timeNow, ctxDone] using h1)
          · rw [List.mem_singleton.mp h1]
            exact hwf
        split
        · intro a ha
          rw [sentAlerts_emit _ _ (by intro _ _ hc; cases hc)] at ha
          exact hsent a ha
        · exact hsent

/-- Every alert the burst loop hands to the sink is well formed and has
priority "high", whatever the burst size and however the loop is left. -/
theorem burstLoop_sent (env : Env) (count interval b pd : Int) :
    ∀ (rem i : Nat) (w : World) (result : ScenarioResult),
      (∀ a ∈ sentAlerts w.trace, wellFormed a = true ∧ a.Priority = "high") →
      ∀ a ∈ sentAlerts (burstLoop env count interval b pd rem i w result).world.trace,
        wellFormed a = true ∧ a.Priority = "high" := by
  intro rem
  induction rem with
  | zero =>
    intro i w result hw
    simpa [burstLoop, LoopExit.world] using hw
  | succ rem ih =>
    intro i w result hw
    rw [burstLoop]
    split
    · simpa [LoopExit.world] using hw
    · rename_i boundary hboundary
      simp only []
      have hpaused : ∀ a ∈ sentAlerts
          (if boundary = true then
            emit (emit w (Event.print ("Pausing for " ++ fmtInt pd ++ " ms after burst\n")))
              (Event.pause pd)
           else w).trace, wellFormed a = true ∧ a.Priority = "high" := by
        split
        · intro a ha
          rw [sentAlerts_emit _ _ (by intro _ _ hc; cases hc),
            sentAlerts_emit _ _ (by intro _ _ hc; cases hc)] at ha
          exact hw a ha
        · exact hw
      split
      · simpa [LoopExit.world, timeNow, randIntn] using hpaused
      · rename_i alert halert
        have hwf := burstAlert_wf _ _ _ _ _ halert
        have hsent : ∀ a ∈ sentAlerts
            (sendAlert env (timeNow env (randIntn env
              (if boundary = true then
                emit (emit w (Event.print ("Pausing for " ++ fmtInt pd ++ " ms after burst\n")))
                  (Event.pause pd)
               else w) severities.length).2).2 alert).2.trace,
            wellFormed a = true ∧ a.Priority = "high" := by
          intro a ha
          rw [sentAlerts_sendAlert] at ha
          rcases List.mem_append.mp ha with h1 | h1
          · exact hpaused a (by simpa [timeNow, randIntn] using h1)
          · rw [List.mem_singleton.mp h1]
            exact hwf
        split
        · simpa [LoopExit.world] using hsent
        · apply ih
          split
          · intro a ha
            rw [sentAlerts_emit _ _ (by intro _ _ hc; cases hc)] at ha
            exact hsent a ha
          · exact hsent

/-- A step of a goroutine of a pooled run hands to the sink only well-formed
alerts, when the worker body builds only such alerts. -/
theorem step_sent (env : Env) (cfg : PoolCfg) (start : Int) (s : Pool) (t : Tid)
    (hbody : ∀ (w : World) (i : Nat) (a : Alert) (w2 : World),
      cfg.body env w i = .ok (a, w2) → wellFormed a = true ∧ w2.trace = w.trace)
    (hs : ∀ a ∈ sentAlerts s.world.trace, wellFormed a = true) :
    ∀ a ∈ sentAlerts (stepTrace s (step env cfg start s t)), wellFormed a = true := by
  cases t with
  | main =>
    simp only [step, mainStep]
    split
    · split
      · simpa [stepTrace] using hs
      · simpa [stepTrace] using hs
    · split
      · simpa [stepTrace, finish_trace] using hs
      · simpa [stepTrace] using hs
  | producer =>
    simp only [step, producerStep]
    split
    · split
      · split
        · simpa [stepTrace] using hs
        · simpa [stepTrace] using hs
      · simpa [stepTrace] using hs
    · intro a ha
      simp only [stepTrace] at ha
      rw [sentAlerts_emit _ _ (by intro _ _ hc; cases hc)] at ha
      exact hs a ha
    · simpa [stepTrace] using hs
  | worker v =>
    simp only [step, workerStep]
    split
    · simpa [stepTrace] using hs
    · split
      · simpa [stepTrace] using hs
      · split
        · intro a ha
          simp only [stepTrace] at ha
          rw [sentAlerts_emit _ _ (by intro _ _ hc; cases hc)] at ha
          exact hs a ha
        · simpa [stepTrace] using hs
    · split
      · simpa [stepTrace] using hs
      · rename_i built hbuilt
        obtain ⟨hwf, htrace⟩ := hbody s.world _ built.1 built.2 hbuilt
        intro a ha
        simp only [stepTrace] at ha
        rw [sentAlerts_sendAlert, htrace] at ha
        rcases List.mem_append.mp ha with h1 | h1
        · exact hs a h1
        · rw [List.mem_singleton.mp h1]
          exact hwf
    · split
      · simpa [stepTrace] using hs
      · simpa [stepTrace] using hs
    · simpa [stepTrace] using hs

/-- Every alert a pooled run hands to the sink is well formed, under every
schedule, for every number of workers and however the run ends. -/
theorem poolRun_sent (env : Env) (cfg : PoolCfg) (start : Int)
    (hbody : ∀ (w : World) (i : Nat) (a : Alert) (w2 : World),
      cfg.body env w i = .ok (a, w2) → wellFormed a = true ∧ w2.trace = w.trace) :
    ∀ (fuel n : Nat) (s : Pool), (∀ a ∈ sentAlerts s.world.trace, wellFormed a = true) →
      ∀ a ∈ sentAlerts (poolRun env cfg start fuel n s).trace, wellFormed a = true := by
  intro fuel
  induction fuel with
  | zero =>
    intro n s hs
    simpa [poolRun] using hs
  | succ fuel ih =>
    intro n s hs
    rw [poolRun]
    split
    · exact hs
    · rename_i t ts hen
      have hstep := step_sent env cfg start s
        ((t :: ts).getD (env.sched n % (ts.length + 1)) t) hbody hs
      split
      · exact hs
      · rename_i s2 hs2
        rw [hs2] at hstep
        exact ih (n + 1) s2 hstep
      · rename_i w msg hpanic
        rw [hpanic] at hstep
        exact hstep
      · rename_i run hrun
        rw [hrun] at hstep
        exact hstep

theorem escalating_trace (env : Env) (opts : ScenarioOptions) :
    (generateEscalatingScenario env opts).trace
      = (escalatingLoop env opts.Count opts.Interval opts.Count.toNat 0
          (timeNow env {}).2 {}).world.trace := by
  simp only [generateEscalatingScenario]
  split <;> rename_i h <;> simp [h, LoopExit.world, finish_trace]

theorem burst_trace (env : Env) (opts : ScenarioOptions) :
    (generateBurstScenario env opts).trace
      = (burstLoop env opts.Count opts.Interval (burstSizeOf opts.Params)
          (pauseDurationOf opts.Params) opts.Count.toNat 0 (timeNow env {}).2 {}).world.trace := by
  simp only [generateBurstScenario]
  split <;> rename_i h <;> simp [h, LoopExit.world, finish_trace]

/-- C11. Alert well-formedness: in every run of each of the four scenarios, for
every count, every cancellation signal, every outcome of the random draws and,
in the pooled scenarios, every concurrency and schedule, every alert handed to
the sink has a non-empty ID, a severity among info, warning, error, critical and
a priority among low, medium, high, critical; in the burst scenario, whatever
the parameters, the priority is "high". -/
theorem alert_well_formed (env : Env) (opts : ScenarioOptions) :
    (∀ a ∈ sentAlerts (generateEscalatingScenario env opts).trace, wellFormed a = true) ∧
    (∀ a ∈ sentAlerts (generateRandomScenario env opts).trace, wellFormed a = true) ∧
    (∀ a ∈ sentAlerts (generateBurstScenario env opts).trace,
      wellFormed a = true ∧ a.Priority = "high") ∧
    (∀ a ∈ sentAlerts (generateMixedScenario env opts).trace, wellFormed a = true) := by
  have hstart : sentAlerts (timeNow env {}).2.trace = [] := rfl
  refine ⟨?_, ?_, ?_, ?_⟩
  · rw [escalating_trace]
    apply escalatingLoop_sent
    intro a ha
    rw [hstart] at ha
    exact absurd ha (List.not_mem_nil a)
  · simp only [generateRandomScenario]
    split
    · intro a ha
      exact absurd ha (List.not_mem_nil a)
    · apply poolRun_sent env _ _ (fun w i a w2 h => randomAlert_wf env w i a w2 h)
      intro a ha
      exact absurd ha (List.not_mem_nil a)
  · rw [burst_trace]
    apply burstLoop_sent
    intro a ha
    rw [hstart] at ha
    exact absurd ha (List.not_mem_nil a)
  · simp only [generateMixedScenario]
    split
    · intro a ha
      exact absurd ha (List.not_mem_nil a)
    · apply poolRun_sent env _ _ (fun w i a w2 h => mixedAlert_wf env w i a w2 h)
      intro a ha
      exact absurd ha (List.not_mem_nil a)

theorem alert_well_formed_witness :
    (sentAlerts (generateEscalatingScenario (sampleEnv oddFailingSink neverDone)
        (sampleOpts 2)).trace).length = 2 ∧
    (sentAlerts (generateBurstScenario (sampleEnv oddFailingSink neverDone)
        (sampleOpts 2)).trace).length = 2 ∧
    (sentAlerts (generateMixedScenario (sampleEnv oddFailingSink neverDone)
        (sampleOpts 2)).trace).length = 2 ∧
    (∀ a ∈ sentAlerts (generateEscalatingScenario (sampleEnv oddFailingSink neverDone)
        (sampleOpts 2)).trace, wellFormed a = true) ∧
    (∀ a ∈ sentAlerts (generateRandomScenario (sampleEnv oddFailingSink neverDone)
        (sampleOpts 2)).trace, wellFormed a = true) ∧
    (∀ a ∈ sentAlerts (generateBurstScenario (sampleEnv oddFailingSink neverDone)
        (sampleOpts 2)).trace, wellFormed a = true ∧ a.Priority = "high") ∧
    (∀ a ∈ sentAlerts (generateMixedScenario (sampleEnv oddFailingSink neverDone)
        (sampleOpts 2)).trace, wellFormed a = true) :=
  ⟨by decide, by decide, by decide,
    alert_well_formed (sampleEnv oddFailingSink neverDone) (sampleOpts 2)⟩

/-! ## Theorems: the buckets of an escalating run -/

/-- The alert the escalating scenario builds for index `i < N` at clock
reading `i + 1` is the reference alert. -/
theorem escalatingAlert_eq (env : Env) {i N : Nat} (h : i < N) :
    escalatingAlert i N (env.now (i + 1)) = .ok (escalatingAlertAt env N i) := by
  have hs := goIndex_getD severities (i * 4 / N) ""
    (by rw [severities_length]; exact bucket_lt h)
  have hp := goIndex_getD priorities (i * 4 / N) ""
    (by rw [priorities_length]; exact bucket_lt h)
  simp only [escalatingAlert, severityIndex_eq h, priorityIndex_eq h, hs, hp, bind, Except.bind,
    pure, Except.pure]
  rfl

/-- The first `m` iterations of the escalating loop of a run of `N` alerts,
when none of their cancellation checks fires: the alerts handed to the sink
are the reference alerts of the indices `i, ..., i + m - 1`, in this order. -/
theorem escalatingLoop_alerts (env : Env) (N : Nat) (interval : Int) (m : Nat) :
    ∀ (rem i : Nat) (w : World) (result : ScenarioResult),
      m ≤ rem → i + rem ≤ N → w.reads = i + 1 →
      (∀ j, j < m → env.done (w.checks + j) = false) →
      ∃ (w2 : World) (result2 : ScenarioResult),
        escalatingLoop env N interval rem i w result
          = escalatingLoop env N interval (rem - m) (i + m) w2 result2 ∧
        sentAlerts w2.trace
          = sentAlerts w.trace ++ (List.range m).map (fun j => escalatingAlertAt env N (i + j)) := by
  induction m with
  | zero =>
    intro rem i w result _ _ _ _
    exact ⟨w, result, by simp, by simp⟩
  | succ m ih =>
    intro rem i w result hm hi hreads hdone
    obtain ⟨rem1, rfl⟩ : ∃ r, rem = r + 1 := ⟨rem - 1, by omega⟩
    have hd0 : env.done w.checks = false := by simpa using hdone 0 (by omega)
    have ha : escalatingAlert i N (env.now w.reads) = .ok (escalatingAlertAt env N i) := by
      rw [hreads]
      exact escalatingAlert_eq env (by omega)
    let ok := env.sink w.calls (escalatingAlertAt env N i)
    let tail1 : List Event := if (i : Int) < (N : Int) - 1 then [Event.sleep interval] else []
    let w1 : World :=
      { calls := w.calls + 1, checks := w.checks + 1, draws := w.draws, reads := w.reads + 1,
        trace := w.trace ++ [Event.send (escalatingAlertAt env N i) ok] ++ tail1 }
    have hstep : escalatingLoop env N interval (rem1 + 1) i w result
        = escalatingLoop env N interval rem1 (i + 1) w1 (record result ok) := by
      rw [escalatingLoop]
      simp only [ctxDone, hd0, timeNow, ha, sendAlert, emit]
      by_cases hc : (i : Int) < (N : Int) - 1
      · simp [hc, w1, tail1, ok]
      · simp [hc, w1, tail1, ok]
    obtain ⟨w2, result2, hrun, hsent⟩ :=
      ih rem1 (i + 1) w1 (record result ok) (by omega) (by omega)
        (by simp only [w1]; omega)
        (by
          intro j hj
          have := hdone (j + 1) (by omega)
          simpa [w1, Nat.add_assoc, Nat.add_comm 1 j] using this)
    have hw1 : sentAlerts w1.trace = sentAlerts w.trace ++ [escalatingAlertAt env N i] := by
      by_cases hc : (i : Int) < (N : Int) - 1
      · simp [w1, tail1, hc, sentAlerts]
      · simp [w1, tail1, hc, sentAlerts]
    refine ⟨w2, result2, ?_, ?_⟩
    · rw [hstep, hrun]
      congr 1 <;> omega
    · rw [hsent, hw1, List.range_succ_eq_map, List.map_cons, List.map_map, List.append_assoc]
      simp only [Nat.add_zero, List.singleton_append, List.cons.injEq, true_and,
        List.append_cancel_left_eq]
      apply List.map_congr_left
      intro j _
      simp only [Function.comp, Nat.succ_eq_add_one]
      congr 1
      omega

/-- The escalating loop only adds to the trace. -/
theorem escalatingLoop_extends (env : Env) (total interval : Int) :
    ∀ (rem i : Nat) (w : World) (result : ScenarioResult),
      ∃ more, (escalatingLoop env total interval rem i w result).world.trace
        = w.trace ++ more := by
  intro rem
  induction rem with
  | zero =>
    intro i w result
    exact ⟨[], by simp [escalatingLoop, LoopExit.world]⟩
  | succ rem ih =>
    intro i w result
    rw [escalatingLoop]
    simp only []
    split
    · exact ⟨[], by simp [LoopExit.world, ctxDone]⟩
    · split
      · exact ⟨[], by simp [LoopExit.world, ctxDone]⟩
      · rename_i alert halert
        split
        · obtain ⟨more, hmore⟩ := ih (i + 1)
            (emit (sendAlert env (timeNow env (ctxDone env w).2).2 alert).2
              (Event.sleep interval))
            (record result (sendAlert env (timeNow env (ctxDone env w).2).2 alert).1)
          exact ⟨Event.send alert (env.sink w.calls alert) :: Event.sleep interval :: more,
            by rw [hmore]; simp [emit, sendAlert, timeNow, ctxDone, List.append_assoc]⟩
        · obtain ⟨more, hmore⟩ := ih (i + 1)
            (sendAlert env (timeNow env (ctxDone env w).2).2 alert).2
            (record result (sendAlert env (timeNow env (ctxDone env w).2).2 alert).1)
          exact ⟨Event.send alert (env.sink w.calls alert) :: more,
            by rw [hmore]; simp [sendAlert, timeNow, ctxDone, List.append_assoc]⟩

theorem severityRank_at (env : Env) {i N : Nat} (h : i < N) :
    severityRank (escalatingAlertAt env N i) = some (i * 4 / N) := by
  have hlt := bucket_lt h
  simp only [severityRank, escalatingAlertAt]
  generalize i * 4 / N = k at hlt
  interval_cases k <;> rfl

theorem priorityRank_at (env : Env) {i N : Nat} (h : i < N) :
    priorityRank (escalatingAlertAt env N i) = some (i * 4 / N) := by
  have hlt := bucket_lt h
  simp only [priorityRank, escalatingAlertAt]
  generalize i * 4 / N = k at hlt
  interval_cases k <;> rfl

/-- The alerts of an escalating run of `N` alerts whose first `m` cancellation
checks do not fire: the first `m` alerts handed to the sink are the reference
alerts of the indices `0, ..., m - 1`, and they are all the alerts of the run
when `m = N`. -/
theorem escalating_sent (env : Env) (opts : ScenarioOptions) (N m : Nat) (hN : opts.Count = N)
    (hm : m ≤ N) (hctx : ∀ k, k < m → env.done k = false) :
    (sentAlerts (generateEscalatingScenario env opts).trace).take m
      = (List.range m).map (escalatingAlertAt env N) ∧
    (m = N → sentAlerts (generateEscalatingScenario env opts).trace
      = (List.range N).map (escalatingAlertAt env N)) := by
  obtain ⟨w2, result2, hrun, hsent⟩ :=
    escalatingLoop_alerts env N opts.Interval m N 0 (timeNow env {}).2 {} hm (by omega) rfl
      (fun j hj => by simpa [timeNow] using hctx j hj)
  obtain ⟨more, hmore⟩ := escalatingLoop_extends env N opts.Interval (N - m) (0 + m) w2 result2
  have hstart : sentAlerts (timeNow env {}).2.trace = [] := rfl
  have hw2 : sentAlerts w2.trace = (List.range m).map (escalatingAlertAt env N) := by
    rw [hsent, hstart, List.nil_append]
    apply List.map_congr_left
    intro j _
    rw [Nat.zero_add]
  have htr : (generateEscalatingScenario env opts).trace = w2.trace ++ more := by
    rw [escalating_trace, hN, Int.toNat_ofNat, hrun, hmore]
  constructor
  · rw [htr, sentAlerts_append, hw2]
    exact List.take_left' (by simp)
  · intro hmN
    subst hmN
    have hdone : escalatingLoop env m opts.Interval (m - m) (0 + m) w2 result2
        = .completed w2 result2 := by
      rw [Nat.sub_self, escalatingLoop]
    rw [escalating_trace, hN, Int.toNat_ofNat, hrun, hdone]
    exact hw2

/-- C4. Escalating bucket progression: in a run of `generateEscalatingScenario`
with `Count = N` whose first `m <= N` cancellation checks do not fire, the
`i`-th alert handed to the sink (`i < m`, counted from 0) is the alert of index
`i` ("escalating-i"), and the position of its severity in `severities`, like
the position of its priority in `priorities`, is `i * 4 / N` (natural-number
division, the floor of the quotient); with `m = N` these are all the alerts of
the run.  For `i <= j < N` the index the code computes for `i` is `i * 4 / N`,
the priority index is computed to the same value, the index of `i` is at most
the index of `j`, and no index exceeds 3. -/
theorem escalating_bucket (env : Env) (opts : ScenarioOptions) (N m : Nat)
    (hN : opts.Count = N) (hm : m ≤ N) (hctx : ∀ k, k < m → env.done k = false) :
    ((sentAlerts (generateEscalatingScenario env opts).trace).take m).map (fun a => a.ID)
      = (List.range m).map (fun i => "escalating-" ++ fmtInt ((i : Nat) : Int)) ∧
    ((sentAlerts (generateEscalatingScenario env opts).trace).take m).map severityRank
      = (List.range m).map (fun i => some (i * 4 / N)) ∧
    ((sentAlerts (generateEscalatingScenario env opts).trace).take m).map priorityRank
      = (List.range m).map (fun i => some (i * 4 / N)) ∧
    (m = N → (sentAlerts (generateEscalatingScenario env opts).trace).length = N) ∧
    (∀ i j, i ≤ j → j < N →
      severityIndex i N = .ok ((i * 4 / N : Nat) : Int) ∧
      priorityIndex i N = severityIndex i N ∧
      i * 4 / N ≤ j * 4 / N ∧ j * 4 / N ≤ 3) := by
  obtain ⟨htake, hall⟩ := escalating_sent env opts N m hN hm hctx
  refine ⟨?_, ?_, ?_, ?_, ?_⟩
  · rw [htake, List.map_map]
    rfl
  · rw [htake, List.map_map]
    apply List.map_congr_left
    intro i hi
    exact severityRank_at env (by have := List.mem_range.mp hi; omega)
  · rw [htake, List.map_map]
    apply List.map_congr_left
    intro i hi
    exact priorityRank_at env (by have := List.mem_range.mp hi; omega)
  · intro hmN
    rw [hall hmN]
    simp
  · intro i j hij hj
    have hi : i < N := by omega
    have hlt := bucket_lt hj
    exact ⟨severityIndex_eq hi, by rw [severityIndex_eq hi, priorityIndex_eq hi],
      Nat.div_le_div_right (by omega), by omega⟩

theorem escalating_bucket_witness :
    (sampleOpts 8).Count = (8 : Nat) ∧
    (∀ k, k < 8 → (sampleEnv reliableSink neverDone).done k = false) ∧
    (sentAlerts (generateEscalatingScenario (sampleEnv reliableSink neverDone)
        (sampleOpts 8)).trace).map severityRank
      = [some 0, some 0, some 1, some 1, some 2, some 2, some 3, some 3] ∧
    (sentAlerts (generateEscalatingScenario (sampleEnv reliableSink neverDone)
        (sampleOpts 8)).trace).map priorityRank
      = [some 0, some 0, some 1, some 1, some 2, some 2, some 3, some 3] ∧
    ((sentAlerts (generateEscalatingScenario (sampleEnv reliableSink neverDone)
        (sampleOpts 8)).trace).take 8).map severityRank
      = (List.range 8).map (fun i => some (i * 4 / 8)) ∧
    (List.range 8).map (fun i : Nat => severityIndex i 8)
      = [.ok 0, .ok 0, .ok 1, .ok 1, .ok 2, .ok 2, .ok 3, .ok 3] := by
  obtain ⟨-, hsev, -, -, -⟩ :=
    escalating_bucket (sampleEnv reliableSink neverDone) (sampleOpts 8) 8 8 rfl (le_refl 8)
      (fun _ _ => rfl)
  exact ⟨rfl, fun _ _ => rfl, by decide, by decide, hsev, rfl⟩

end AlertGen
